import Mathlib

/- Shallow embedding of the bar menu-management application core:
   from `bar.py` the unit converter, the ingredient-name cleaner and the
   add/edit submit flow over the JSON menu list, and from `db_utils.py`
   the spec-line parser, the unit converter variant, the SQLite-backed
   record store operations (insert, migrate, backfill).
   Python regexes are modelled over their ASCII character classes and
   Python floats as exact rationals; `sqlite3` tables are modelled as
   Lean lists of row structures, and an uncommitted transaction that is
   dropped on error is modelled by returning the original store. -/

/-- Python regex `\s` and `str.strip` whitespace (ASCII range). -/
def isSpaceC (c : Char) : Bool :=
  c.toNat = 32 || c.toNat = 9 || c.toNat = 10 || c.toNat = 13 ||
  c.toNat = 11 || c.toNat = 12

/-- Python regex `\d` (ASCII range). -/
def isDigitC (c : Char) : Bool := 48 ≤ c.toNat && c.toNat ≤ 57

/-- Case-insensitive comparison of input character `c` against a lowercase
    pattern letter `p` (regex flag `re.IGNORECASE`). -/
def ciEq (p c : Char) : Bool := c.toNat = p.toNat || p.toNat = c.toNat + 32

/-- Does the second list start with the first (exact characters)? -/
def startsWithL : List Char → List Char → Bool
  | [], _ => true
  | _ :: _, [] => false
  | a :: as, b :: bs => (a = b) && startsWithL as bs

/-- Python substring test `needle in hay`. -/
def containsSub (needle : List Char) : List Char → Bool
  | [] => startsWithL needle []
  | c :: t => startsWithL needle (c :: t) || containsSub needle t

/-- Case-insensitive `startsWithL` for a lowercase pattern. -/
def startsWithCI : List Char → List Char → Bool
  | [], _ => true
  | _ :: _, [] => false
  | p :: ps, c :: cs => ciEq p c && startsWithCI ps cs

/-- Numeric value of a run of ASCII digit characters. -/
def digitsToNat (l : List Char) : Nat :=
  l.foldl (fun a c => a * 10 + (c.toNat - 48)) 0

/-- The decimal digit character for `n < 10`. -/
def digitChar10 (n : Nat) : Char :=
  match n with
  | 0 => '0' | 1 => '1' | 2 => '2' | 3 => '3' | 4 => '4'
  | 5 => '5' | 6 => '6' | 7 => '7' | 8 => '8' | _ => '9'

/-- Decimal rendering of a natural number, as Python `str` does. -/
def natDigits (n : Nat) : List Char :=
  if n < 10 then [digitChar10 n]
  else natDigits (n / 10) ++ [digitChar10 (n % 10)]
termination_by n
decreasing_by exact Nat.div_lt_self (by omega) (by omega)

/-- Python `round` to an integer: round half to even. -/
def roundHE (q : ℚ) : ℤ :=
  if q - ⌊q⌋ < 1/2 then ⌊q⌋
  else if 1/2 < q - ⌊q⌋ then ⌊q⌋ + 1
  else if ⌊q⌋ % 2 = 0 then ⌊q⌋ else ⌊q⌋ + 1

/-- Python `round(x, 2)`. -/
def round2 (q : ℚ) : ℚ := (roundHE (q * 100) : ℚ) / 100

/-- Python `%` on numbers, used here with a positive modulus. -/
def qmod (a b : ℚ) : ℚ := a - b * ⌊a / b⌋

/-- Two-digit decimal rendering of `m < 100`. -/
def twoDig (m : Nat) : List Char :=
  if m < 10 then '0' :: natDigits m else natDigits m

/-- Python `f-string` formatting `{q:.2f}`. -/
def fmt2 (q : ℚ) : List Char :=
  if roundHE (q * 100) < 0 then
    '-' :: (natDigits ((roundHE (q * 100)).natAbs / 100) ++
      '.' :: twoDig ((roundHE (q * 100)).natAbs % 100))
  else
    natDigits ((roundHE (q * 100)).natAbs / 100) ++
      '.' :: twoDig ((roundHE (q * 100)).natAbs % 100)

/-- The `\s*(ml|cl)` tail of the converter pattern: skip whitespace, then
    require a two-letter unit; returns the unit's two characters (as
    captured, i.e. in their original case) and the text after the match. -/
def unitSplit (r : List Char) : Option (Char × Char × List Char) :=
  match r.dropWhile isSpaceC with
  | a :: b :: rest =>
      if (ciEq 'm' a || ciEq 'c' a) && ciEq 'l' b then some (a, b, rest) else none
  | _ => none

/-- The optional `\.?\d*` part after the leading digit run: the fractional
    digits and the remaining text. -/
def fracSplit (r : List Char) : List Char × List Char :=
  match r with
  | '.' :: t => (t.takeWhile isDigitC, t.dropWhile isDigitC)
  | _ => ([], r)

/-- One attempted match of `(\d+\.?\d*)\s*(ml|cl)` (case-insensitive) at the
    head of `l`: the parsed numeric value, whether the captured unit text is
    exactly `cl` (the sources compare `unit == 'cl'` case-sensitively on the
    captured group, even though matching is `IGNORECASE`), and the text
    after the match.  The regex needs no backtracking here: every shorter
    choice of a greedy piece puts a digit, dot or whitespace where the unit
    letters must be. -/
def tryMatchML (l : List Char) : Option (ℚ × Bool × List Char) :=
  if l.takeWhile isDigitC = [] then none
  else
    match unitSplit (fracSplit (l.dropWhile isDigitC)).2 with
    | some (a, u2, rest) =>
        some ((digitsToNat (l.takeWhile isDigitC) : ℚ) +
                (digitsToNat (fracSplit (l.dropWhile isDigitC)).1 : ℚ) /
                  (10 : ℚ) ^ (fracSplit (l.dropWhile isDigitC)).1.length,
              a == 'c' && u2 == 'l', rest)
    | none => none

/-- `re.sub` scanning: at each position try the pattern; on a match emit the
    replacement `rf value isCl` and continue after the match, otherwise copy
    one character. -/
def scanG (rf : ℚ → Bool → List Char) : List Char → List Char
  | [] => []
  | c :: t =>
    match hm : tryMatchML (c :: t) with
    | some (v, b, rest) => rf v b ++ scanG rf rest
    | none => c :: scanG rf t
termination_by l => l.length
decreasing_by
  · have hdw : ∀ (p : Char → Bool) (l : List Char),
        (l.dropWhile p).length ≤ l.length := by
      intro p l
      induction l with
      | nil => simp [List.dropWhile]
      | cons x xs ih =>
        by_cases h : p x <;> simp [List.dropWhile_cons, h] <;> omega
    simp only [tryMatchML] at hm
    split at hm
    · exact absurd hm (by simp)
    · rename_i hne
      split at hm
      · rename_i a u2 rest' hu
        injection hm with hm1
        injection hm1 with _ hm2
        injection hm2 with _ hm3
        subst hm3
        unfold unitSplit at hu
        split at hu
        · rename_i a' b' rest2 hsp
          split at hu
          · injection hu with hu1
            injection hu1 with _ hu1b
            injection hu1b with _ hu2
            subst hu2
            have h1 : rest2.length + 2 ≤ ((fracSplit ((c :: t).dropWhile isDigitC)).2).length := by
              have := hdw isSpaceC ((fracSplit ((c :: t).dropWhile isDigitC)).2)
              rw [hsp] at this
              simpa using this
            have h2 : ((fracSplit ((c :: t).dropWhile isDigitC)).2).length ≤
                ((c :: t).dropWhile isDigitC).length := by
              unfold fracSplit
              split
              · rename_i t' heq
                rw [heq]
                have := hdw isDigitC t'
                simp
                omega
              · simp
            have h3 : ((c :: t).dropWhile isDigitC).length ≤ t.length := by
              have hc : isDigitC c = true := by
                by_contra hcf
                simp only [Bool.not_eq_true] at hcf
                simp [List.takeWhile_cons, hcf] at hne
              simp only [List.dropWhile_cons, hc, if_true]
              exact hdw isDigitC t
            simp only [List.length_cons]
            omega
          · exact absurd hu (by simp)
        · exact absurd hu (by simp)
      · exact absurd hm (by simp)
  · simp only [List.length_cons]
    omega

/-- Replacement used by `convert_ml_to_oz` in `bar.py`:
    `ounces = round(value / 30, 2)`, snap to the nearest quarter with
    `round(ounces * 4) / 4` when not already a multiple of `0.25`, then
    `f"{ounces:.2f}oz"` when positive, else `"dash"`. -/
def replBar (v : ℚ) (isCl : Bool) : List Char :=
  let ml := if isCl then v * 10 else v
  let oz0 := round2 (ml / 30)
  let oz := if qmod oz0 (1/4) ≠ 0 then (roundHE (oz0 * 4) : ℚ) / 4 else oz0
  if 0 < oz then fmt2 oz ++ ['o', 'z'] else ['d', 'a', 's', 'h']

/-- Replacement used by `convert_ml_to_oz` in `db_utils.py`:
    `ounces = round(value / 30, 2)`; `"dash"` when below `0.15`; otherwise
    snap down when `ounces % 0.25 < 0.12` and up otherwise, and format with
    `f"{ounces:.2f} oz".replace(".00", "")` — the `.replace` can only hit
    the single fractional part, realized here as the conditional. -/
def replDb (v : ℚ) (isCl : Bool) : List Char :=
  let ml := if isCl then v * 10 else v
  let oz0 := round2 (ml / 30)
  if oz0 < 3/20 then ['d', 'a', 's', 'h']
  else
    let r := qmod oz0 (1/4)
    let oz := if r < 3/25 then oz0 - r else oz0 + (1/4 - r)
    (if (roundHE (oz * 100)).natAbs % 100 = 0 then
       (if roundHE (oz * 100) < 0 then
          '-' :: natDigits ((roundHE (oz * 100)).natAbs / 100)
        else natDigits ((roundHE (oz * 100)).natAbs / 100))
     else fmt2 oz) ++ [' ', 'o', 'z']

/-- `bar.py`'s `convert_ml_to_oz`. -/
def convert_ml_to_oz_bar (text : String) : String :=
  String.mk (scanG replBar text.data)

/-- `db_utils.py`'s `convert_ml_to_oz`. -/
def convert_ml_to_oz_db (text : String) : String :=
  String.mk (scanG replDb text.data)

/-- Characters that can occur inside a successful `tryMatchML` match:
    digits, the dot, whitespace, and the unit letters `m`, `c`, `l` in
    either case. -/
def matchSet (c : Char) : Bool :=
  isDigitC c || c = '.' || isSpaceC c || ciEq 'm' c || ciEq 'c' c || ciEq 'l' c

/-- Properties of a replacement function that make `re.sub` scanning
    produce match-free output: replacements are nonempty, contain no unit
    first-letter (`m`/`c` in either case), end in a character no match can
    contain, and do not start with an `l`. -/
def ReplOK (rf : ℚ → Bool → List Char) : Prop :=
  ∀ v b, rf v b ≠ [] ∧
    (∀ ch ∈ rf v b, ciEq 'm' ch = false ∧ ciEq 'c' ch = false) ∧
    (∃ z, (rf v b).getLast? = some z ∧ matchSet z = false) ∧
    (∃ h0, (rf v b).head? = some h0 ∧ ciEq 'l' h0 = false)

/-- Leading character class `[\d\.]` of `parse_spec_line`'s pattern. -/
def specClass (c : Char) : Bool := isDigitC c || c = '.'

/-- Is the head of the list a whitespace character (`\s+` must start here)? -/
def hasSpaceHead : List Char → Bool
  | [] => false
  | c :: _ => isSpaceC c

/-- Ordered regex alternation: the first alternative that matches
    case-insensitively and is followed by mandatory whitespace wins; the
    matched text keeps the input's casing (`match.group(2)`). -/
def unitAlt : List (List Char) → List Char → Option (List Char × List Char)
  | [], _ => none
  | u :: us, t =>
    if startsWithCI u t && hasSpaceHead (t.drop u.length) then
      some (t.take u.length, t.drop u.length)
    else unitAlt us t

/-- The unit alternation `(oz|dash|dashes|cl|ml)` of `parse_spec_line`, in
    source order, each alternative accepted only when the `\s+` after the
    optional group can match. -/
def findUnitSpec (t : List Char) : Option (List Char × List Char) :=
  unitAlt [['o','z'], ['d','a','s','h'], ['d','a','s','h','e','s'],
           ['c','l'], ['m','l']] t

/-- Python `float` on a token drawn from `[\d\.]+`: defined when the token
    has at least one digit and at most one dot; raises `ValueError`
    otherwise (e.g. on `"."` or `"1.2.3"`). -/
def floatVal (T : List Char) : Except Unit ℚ :=
  if T.count '.' ≤ 1 && T.any isDigitC then
    Except.ok ((digitsToNat (T.takeWhile isDigitC) : ℚ) +
      (digitsToNat (fracSplit (T.dropWhile isDigitC)).1 : ℚ) /
        (10 : ℚ) ^ (fracSplit (T.dropWhile isDigitC)).1.length)
  else Except.error ()

/-- Does a line match the overall shape of `parse_spec_line`'s anchored
    pattern `([\d\.]+)\s*(oz|dash|dashes|cl|ml)?\s+(.*)`?  After the
    greedy leading token, either a unit with trailing whitespace matches,
    or the `\s*` run is nonempty so `\s*` can give one character back to
    `\s+`. -/
def matchesSpecShape (line : String) : Bool :=
  let T := line.data.takeWhile specClass
  let rest := line.data.dropWhile specClass
  !T.isEmpty &&
    ((findUnitSpec (rest.dropWhile isSpaceC)).isSome ||
      !(rest.takeWhile isSpaceC).isEmpty)

/-- `db_utils.py`'s `parse_spec_line`.  `re.match` anchors the pattern at
    the start; on a successful regex match `float(match.group(1))` may still
    raise `ValueError`, modelled as `Except.error ()`.  On a failed match
    the source returns `(0, "", spec_line)`. -/
def parse_spec_line (line : String) : Except Unit (ℚ × String × String) :=
  let T := line.data.takeWhile specClass
  let rest := line.data.dropWhile specClass
  if T.isEmpty then .ok (0, "", line)
  else
    match findUnitSpec (rest.dropWhile isSpaceC) with
    | some (ustr, after) =>
        (floatVal T).map fun a =>
          (a, String.mk ustr,
            String.mk ((after.dropWhile isSpaceC).takeWhile (· ≠ '\n')))
    | none =>
        if (rest.takeWhile isSpaceC).isEmpty then .ok (0, "", line)
        else
          (floatVal T).map fun a =>
            (a, "", String.mk ((rest.dropWhile isSpaceC).takeWhile (· ≠ '\n')))

/-- Did `parse_spec_line` raise? -/
def isErr : Except Unit (ℚ × String × String) → Bool
  | .error _ => true
  | .ok _ => false

/-- Character class `[0-9.\s/]` of `clean_ingredient_name`'s pattern. -/
def cleanClass (c : Char) : Bool :=
  isDigitC c || c = '.' || c = '/' || isSpaceC c

/-- Python `str.strip`. -/
def stripChars (l : List Char) : List Char :=
  ((l.dropWhile isSpaceC).reverse.dropWhile isSpaceC).reverse

/-- Ordered alternation where nothing is required after the alternative, so
    the first case-insensitive literal match wins outright. -/
def cleanAlt : List (List Char) → List Char → Option (List Char)
  | [], _ => none
  | u :: us, t => if startsWithCI u t then some (t.drop u.length) else cleanAlt us t

/-- The optional unit group `(?:oz|ml|cl|dash|dashes)?` of
    `clean_ingredient_name`, in source order. -/
def findUnitClean (t : List Char) : Option (List Char) :=
  cleanAlt [['o','z'], ['m','l'], ['c','l'], ['d','a','s','h'],
            ['d','a','s','h','e','s']] t

/-- The `re.sub(r'^[0-9.\s/]+(?:oz|ml|cl|dash|dashes)?\s*', '', line)` step
    of `clean_ingredient_name`: with no leading class character the pattern
    cannot match and the line is unchanged. -/
def subLeading (l : List Char) : List Char :=
  if (l.takeWhile cleanClass).isEmpty then l
  else
    match findUnitClean (l.dropWhile cleanClass) with
    | some after => after.dropWhile isSpaceC
    | none => (l.dropWhile cleanClass).dropWhile isSpaceC

/-- `bar.py`'s `clean_ingredient_name`. -/
def clean_ingredient_name (line : String) : String :=
  String.mk (stripChars (subLeading line.data))


/-- A row of the `recipes` table (`init_db` plus the columns added by
    `add_category_column` and `add_details_columns`); absent values are SQL
    `NULL`. -/
structure RecipeRow where
  id : Nat
  name : String
  instructions : Option String
  glassware : Option String
  is_favorite : Bool
  category : Option String
  description : Option String
  image_url : Option String
  price : Option String
  spirit : Option String
deriving DecidableEq, Repr

/-- A row of the `recipe_ingredients` table. -/
structure IngredientRow where
  id : Nat
  recipe_id : Nat
  amount : ℚ
  unit : String
  ingredient : String
  raw_text : String
deriving DecidableEq, Repr

/-- The SQLite database: both tables plus the AUTOINCREMENT counters. -/
structure Store where
  recipes : List RecipeRow
  ingredients : List IngredientRow
  nextRecipeId : Nat
  nextIngredientId : Nat
deriving DecidableEq, Repr

/-- A freshly initialized database. -/
def emptyStore : Store := ⟨[], [], 1, 1⟩

/-- The recipe dict passed to `save_new_recipe`, with the `.get` defaults
    already applied (`name` has no default and may be absent). -/
structure RecipeData where
  name : Option String
  instructions : String
  category : String
  description : String
  price : String
  image_url : String
  spirit : String
  specs : List String
deriving DecidableEq, Repr

/-- Ingredient rows built by `save_new_recipe`'s insert loop; a
    `parse_spec_line` failure raises out of the loop. -/
def specRowsOfStrings : List String → Nat → Nat → Except Unit (List IngredientRow)
  | [], _, _ => .ok []
  | spec :: rest, nid, rid =>
    match parse_spec_line spec with
    | .error e => .error e
    | .ok (a, u, i) =>
      match specRowsOfStrings rest (nid + 1) rid with
      | .error e => .error e
      | .ok rows => .ok ({ id := nid, recipe_id := rid, amount := a, unit := u,
                           ingredient := i, raw_text := spec } :: rows)

/-- `db_utils.py`'s `save_new_recipe`: duplicate names are rejected before
    any insert; any exception (a missing name hitting the NOT NULL
    constraint, a `parse_spec_line` failure) is caught, `False` is
    returned, and the uncommitted transaction is discarded on close. -/
def save_new_recipe (d : RecipeData) (s : Store) : Bool × Store :=
  if s.recipes.any (fun r => some r.name = d.name) then (false, s)
  else
    match d.name with
    | none => (false, s)
    | some n =>
      match specRowsOfStrings d.specs s.nextIngredientId s.nextRecipeId with
      | .error _ => (false, s)
      | .ok rows =>
        let row : RecipeRow :=
          { id := s.nextRecipeId, name := n,
            instructions := some d.instructions, glassware := none,
            is_favorite := false, category := some d.category,
            description := some d.description, image_url := some d.image_url,
            price := some d.price, spirit := some d.spirit }
        (true,
         { recipes := s.recipes ++ [row],
           ingredients := s.ingredients ++ rows,
           nextRecipeId := s.nextRecipeId + 1,
           nextIngredientId := s.nextIngredientId + rows.length })

/-- An item of a legacy record's `spec_recipe` array: the migration's
    `isinstance(spec, str)` check skips non-strings. -/
inductive SpecEntry where
  | sstr (s : String)
  | snonstr
deriving DecidableEq, Repr

/-- The price field of a legacy JSON record (`price` is inconsistently
    typed across snapshot versions). -/
inductive LegacyPrice where
  | pnum (q : ℚ)
  | pstr (s : String)
  | pnone
deriving DecidableEq, Repr

/-- An entry of `menu.json` as the migration sees it, `.get` defaults
    applied. -/
structure LegacyRecord where
  name : String
  spirit : String
  beer_type : String
  is_cotw : Bool
  is_craft : Bool
  is_classic : Bool
  instructions : String
  description : String
  image_path : String
  price : LegacyPrice
  spec_recipe : List SpecEntry
deriving DecidableEq, Repr

/-- A top-level element of the parsed `menu.json` array: a JSON object, or
    some other JSON value on which `item.get` raises `AttributeError`. -/
inductive LegacyItem where
  | obj (r : LegacyRecord)
  | nonObj
deriving DecidableEq, Repr

/-- The auto-categorization chain inside `migrate_json_to_db`: the
    `category` variable starts at `'Classics'` and the first matching
    branch overwrites it; the raw-spirit branch assigns `'Liquors'` before
    its trailing `pass`. -/
def migrateCategory (r : LegacyRecord) : String :=
  if r.is_cotw then "Featured Sips"
  else if r.spirit = "Beer" ∨ r.beer_type ≠ "" then "Beer"
  else if r.spirit = "Red Wine" ∨ r.spirit = "White Wine" ∨
          containsSub "Wine".data r.spirit.data then "Wine"
  else if r.spirit = "Non-Alcoholic" then "Zero Proof"
  else if r.is_craft then "Craft Cocktails"
  else if r.is_classic then "Classics"
  else if r.spirit ∈ ["Tequila", "Vodka", "Gin", "Rum", "Whiskey", "Bourbon"]
       then "Liquors"
  else "Classics"

/-- Ingredient rows built by the migration's spec loop; non-strings are
    skipped, a `parse_spec_line` failure raises out of the loop. -/
def migrateSpecRows : List SpecEntry → Nat → Nat → Except Unit (List IngredientRow)
  | [], _, _ => .ok []
  | .snonstr :: rest, nid, rid => migrateSpecRows rest nid rid
  | .sstr spec :: rest, nid, rid =>
    match parse_spec_line spec with
    | .error e => .error e
    | .ok (a, u, i) =>
      match migrateSpecRows rest (nid + 1) rid with
      | .error e => .error e
      | .ok rows => .ok ({ id := nid, recipe_id := rid, amount := a, unit := u,
                           ingredient := i, raw_text := spec } :: rows)

/-- Processing one snapshot entry inside `migrate_json_to_db`'s loop: skip
    when the name already exists, otherwise classify, insert the recipe row
    and its parsed ingredient rows.  A non-object entry raises at
    `item.get`. -/
def migrateStep (it : LegacyItem) (st : Store) : Except Unit (Bool × Store) :=
  match it with
  | .nonObj => .error ()
  | .obj r =>
    if st.recipes.any (fun row => row.name = r.name) then .ok (false, st)
    else
      match migrateSpecRows r.spec_recipe st.nextIngredientId st.nextRecipeId with
      | .error e => .error e
      | .ok rows =>
        let row : RecipeRow :=
          { id := st.nextRecipeId, name := r.name,
            instructions := some r.instructions, glassware := none,
            is_favorite := false, category := some (migrateCategory r),
            description := none, image_url := none, price := none,
            spirit := none }
        .ok (true,
          { recipes := st.recipes ++ [row],
            ingredients := st.ingredients ++ rows,
            nextRecipeId := st.nextRecipeId + 1,
            nextIngredientId := st.nextIngredientId + rows.length })

/-- The migration loop with its running `count` of new inserts. -/
def migrateGo : List LegacyItem → Store → Nat → Except Unit (Nat × Store)
  | [], st, cnt => .ok (cnt, st)
  | it :: rest, st, cnt =>
    match migrateStep it st with
    | .error e => .error e
    | .ok (ins, st') => migrateGo rest st' (if ins then cnt + 1 else cnt)

/-- `db_utils.py`'s `migrate_json_to_db`, over an already-parsed snapshot:
    the one `except` around the whole loop swallows any exception and the
    connection is dropped without `commit`, rolling the entire run back. -/
def migrate_json_to_db (snapshot : List LegacyItem) (s : Store) :
    Option Nat × Store :=
  match migrateGo snapshot s 0 with
  | .error _ => (none, s)
  | .ok (cnt, st') => (some cnt, st')

/-- The price-string computation inside `backfill_details_from_json`
    (`f"${price_val:.0f}"` for positive numbers, strings passed through,
    anything else giving the empty string). -/
def backfillPrice : LegacyPrice → String
  | .pnum q => if 0 < q then String.mk ('$' :: natDigits (roundHE q).natAbs) else ""
  | .pstr s => s
  | .pnone => ""

/-- The effect of one backfill `UPDATE ... WHERE name = ?` on a single
    recipe row. -/
def backfillRow (r : LegacyRecord) (row : RecipeRow) : RecipeRow :=
  if row.name = r.name then
    { row with description := some r.description,
               image_url := some r.image_path,
               price := some (backfillPrice r.price),
               spirit := some r.spirit }
  else row

/-- One `UPDATE recipes SET description, image_url, price, spirit WHERE
    name = ?` of the backfill loop. -/
def backfillApply (r : LegacyRecord) (rows : List RecipeRow) : List RecipeRow :=
  rows.map (backfillRow r)

/-- The backfill loop with its `rowcount`-based counter. -/
def backfillGo : List LegacyItem → List RecipeRow → Nat →
    Except Unit (Nat × List RecipeRow)
  | [], rows, cnt => .ok (cnt, rows)
  | .nonObj :: _, _, _ => .error ()
  | .obj r :: rest, rows, cnt =>
    backfillGo rest (backfillApply r rows)
      (if rows.any (fun row => row.name = r.name) then cnt + 1 else cnt)

/-- `db_utils.py`'s `backfill_details_from_json` over a parsed snapshot;
    an exception rolls the whole run back. -/
def backfill_details_from_json (snapshot : List LegacyItem) (s : Store) :
    Option Nat × Store :=
  match backfillGo snapshot s.recipes 0 with
  | .error _ => (none, s)
  | .ok (cnt, rows) => (some cnt, { s with recipes := rows })

/-- A record of the JSON menu list as built by the submit flow of
    `bar.py`'s form (all keys present). -/
structure MenuItem where
  name : String
  spirit : String
  price : ℚ
  description : String
  ingredients : List String
  spec_recipe : List String
  glassware : String
  garnish : String
  instructions : String
  image_path : String
  is_classic : Bool
  is_cotw : Bool
  is_craft : Bool
  beer_type : String
  is_well : Bool
deriving DecidableEq, Repr

/-- The wine-like type group test `"Wine" in spirit or "Sparkling" in
    spirit`. -/
def isWineGroup (spirit : String) : Bool :=
  containsSub "Wine".data spirit.data || containsSub "Sparkling".data spirit.data

/-- The widget state of one submit of `bar.py`'s drink form. -/
structure FormData where
  name : String
  spirit : String
  price : ℚ
  description : String
  is_cotw : Bool
  is_craft : Bool
  is_well : Bool
  beer_type : String
  uploadedPath : Option String
  specRaw : String
  instructions : String
  glassware : String
  garnish : String
deriving DecidableEq, Repr

/-- Python `text.split('\n')`. -/
def splitOnNl : List Char → List (List Char)
  | [] => [[]]
  | c :: t =>
    if c = '\n' then [] :: splitOnNl t
    else
      match splitOnNl t with
      | [] => [[c]]
      | h :: r => (c :: h) :: r

/-- One step of the `is_cotw` clearing loop: the record being edited is
    skipped (`if is_edit and d == edit_item: continue`), records in the new
    record's type group get their flag cleared, everything else is left
    alone. -/
def clearCotwItem (isEdit : Bool) (editItem : Option MenuItem) (newWine : Bool)
    (d : MenuItem) : MenuItem :=
  if isEdit = true ∧ editItem = some d then d
  else if newWine = true ∧ isWineGroup d.spirit = true then { d with is_cotw := false }
  else if newWine = false ∧ isWineGroup d.spirit = false then { d with is_cotw := false }
  else d

/-- The `is_cotw` clearing pass run on submit when the featured box is
    checked. -/
def clearCotw (menu : List MenuItem) (isEdit : Bool) (editItem : Option MenuItem)
    (newWine : Bool) : List MenuItem :=
  menu.map (clearCotwItem isEdit editItem newWine)

/-- `menu.index(edit_item)` followed by `menu[idx] = new_entry`: replace
    the first occurrence. -/
def replaceFirst : List MenuItem → MenuItem → MenuItem → List MenuItem
  | [], _, _ => []
  | d :: t, e, x => if d = e then x :: t else d :: replaceFirst t e x

/-- The new record dict built by the submit handler: split the spec text
    into stripped nonempty lines, clean ingredient names except for the
    wine/beer/zero-proof spirits, and unit-convert every spec line. -/
def mkEntry (f : FormData) (isEdit : Bool) (editItem : Option MenuItem) : MenuItem :=
  let rawStrs := ((((splitOnNl f.specRaw.data).map stripChars).filter
      (fun l => l ≠ [])).map String.mk)
  { name := f.name, spirit := f.spirit, price := f.price,
    description := f.description,
    ingredients :=
      if f.spirit ∈ ["Red Wine", "White Wine", "Sparkling", "Beer", "Non-Alcoholic"]
      then rawStrs else rawStrs.map clean_ingredient_name,
    spec_recipe := rawStrs.map convert_ml_to_oz_bar,
    glassware := f.glassware, garnish := f.garnish,
    instructions := f.instructions,
    image_path :=
      match f.uploadedPath with
      | some p => p
      | none => if isEdit then (match editItem with
                                | some e => e.image_path
                                | none => "") else "",
    is_classic := false, is_cotw := f.is_cotw, is_craft := f.is_craft,
    beer_type := f.beer_type, is_well := f.is_well }

/-- The edit-mode tail of the submit handler: `menu.index(edit_item)`
    followed by assignment replaces the first record equal to the edited
    one; a `ValueError` (item absent, or `editing_item` still `None`)
    falls back to `menu.append`. -/
def applyEdit (m1 : List MenuItem) (editItem : Option MenuItem)
    (entry : MenuItem) : List MenuItem :=
  match editItem with
  | some e => if e ∈ m1 then replaceFirst m1 e entry else m1 ++ [entry]
  | none => m1 ++ [entry]

/-- The submit handler of `bar.py`'s drink form (the `if submitted:` body):
    empty names are rejected; the clearing pass runs when `is_cotw` is
    checked; in edit mode the entry replaces the edited record, in add mode
    it is appended — with no duplicate-name check on either path. -/
def submitForm (menu : List MenuItem) (isEdit : Bool) (editItem : Option MenuItem)
    (f : FormData) : List MenuItem :=
  if f.name = "" then menu
  else
    let m1 := if f.is_cotw then clearCotw menu isEdit editItem (isWineGroup f.spirit)
              else menu
    let entry := mkEntry f isEdit editItem
    if isEdit then applyEdit m1 editItem entry
    else m1 ++ [entry]

/-- The featured-item invariant: at most one `is_cotw` record per type
    group (the wine-like group and the everything-else group). -/
def atMostOneCotw (menu : List MenuItem) : Prop :=
  ∀ g : Bool, menu.countP (fun d => d.is_cotw && (isWineGroup d.spirit == g)) ≤ 1

/-- Concrete legacy record exercising the raw-spirit classification
    branch: all flags false, no beer type, spirit `"Tequila"`. -/
def wTequila : LegacyRecord :=
  { name := "Casamigos", spirit := "Tequila", beer_type := "", is_cotw := false,
    is_craft := false, is_classic := false, instructions := "", description := "",
    image_path := "", price := .pnone, spec_recipe := [] }

/-- Concrete legacy record whose migration succeeds. -/
def wNegroni : LegacyRecord :=
  { name := "Negroni", spirit := "Gin", beer_type := "", is_cotw := false,
    is_craft := false, is_classic := false, instructions := "Stir over ice",
    description := "A classic", image_path := "", price := .pstr "15",
    spec_recipe := [] }

/-- The store obtained by migrating `wNegroni` into an empty database. -/
def wStore : Store := (migrate_json_to_db [LegacyItem.obj wNegroni] emptyStore).2

/-- The recipe row that migrating `wNegroni` produces in `wStore`. -/
def wRow : RecipeRow :=
  { id := 1, name := "Negroni", instructions := some "Stir over ice",
    glassware := none, is_favorite := false, category := some "Liquors",
    description := none, image_url := none, price := none, spirit := none }

/-- A recipe dict colliding with `wNegroni`'s name. -/
def wDup : RecipeData :=
  { name := some "Negroni", instructions := "", category := "Classics",
    description := "", price := "", image_url := "", spirit := "Gin", specs := [] }

/-- Concrete wine-group menu record with the featured flag set. -/
def wChianti : MenuItem :=
  { name := "Chianti", spirit := "Red Wine", price := 0, description := "",
    ingredients := [], spec_recipe := [], glassware := "", garnish := "",
    instructions := "", image_path := "", is_classic := false, is_cotw := true,
    is_craft := false, beer_type := "", is_well := false }

/-- Concrete non-wine menu record with the featured flag set. -/
def wMule : MenuItem :=
  { name := "Mule", spirit := "Vodka", price := 0, description := "",
    ingredients := [], spec_recipe := [], glassware := "", garnish := "",
    instructions := "", image_path := "", is_classic := false, is_cotw := true,
    is_craft := true, beer_type := "", is_well := false }

/-- A concrete featured wine-group submission. -/
def wForm : FormData :=
  { name := "Prosecco", spirit := "Sparkling", price := 0, description := "",
    is_cotw := true, is_craft := true, is_well := false, beer_type := "Bottle/Can",
    uploadedPath := none, specRaw := "", instructions := "", glassware := "",
    garnish := "" }

/-- A concrete non-featured submission that duplicates `wMule`'s name. -/
def wFormMule : FormData :=
  { name := "Mule", spirit := "Vodka", price := 0, description := "",
    is_cotw := false, is_craft := true, is_well := false, beer_type := "Bottle/Can",
    uploadedPath := none, specRaw := "", instructions := "", glassware := "",
    garnish := "" }

lemma clearCotwItem_name (ie : Bool) (e : Option MenuItem) (nw : Bool) (d : MenuItem) :
    (clearCotwItem ie e nw d).name = d.name := by
  unfold clearCotwItem
  split
  · rfl
  · split
    · rfl
    · split
      · rfl
      · rfl

lemma migrateCategory_proj (r : LegacyRecord) :
    migrateCategory r = migrateCategory
      { name := "", spirit := r.spirit, beer_type := r.beer_type,
        is_cotw := r.is_cotw, is_craft := r.is_craft, is_classic := r.is_classic,
        instructions := "", description := "", image_path := "",
        price := .pnone, spec_recipe := [] } := rfl

lemma migrateGo_error_of_bad (l : List LegacyItem) :
    LegacyItem.nonObj ∈ l → ∀ st cnt, migrateGo l st cnt = .error () := by
  induction l with
  | nil => intro hl; cases hl
  | cons it rest ih =>
    intro hl st cnt
    rcases List.mem_cons.mp hl with h | h
    · rw [← h]
      simp [migrateGo, migrateStep]
    · cases hstep : migrateStep it st with
      | error e => cases e; simp [migrateGo, hstep]
      | ok x =>
        obtain ⟨ins, st'⟩ := x
        simp only [migrateGo, hstep]
        exact ih h st' _

/-- Claim C7: `save_new_recipe` with a name that already exists in the
    store returns `False` and leaves the store — record count, every
    field, and every ingredient row — completely unchanged. -/
theorem save_new_recipe_duplicate_noop (d : RecipeData) (s : Store) (n : String)
    (hn : d.name = some n) (hmem : n ∈ s.recipes.map (fun r => r.name)) :
    save_new_recipe d s = (false, s) := by
  unfold save_new_recipe
  have hany : s.recipes.any (fun r => some r.name = d.name) = true := by
    rw [List.any_eq_true]
    rcases List.mem_map.mp hmem with ⟨r, hr, hrn⟩
    refine ⟨r, hr, ?_⟩
    simp [hn, hrn]
  rw [hany]
  simp

/-- Witness for C7: a concrete duplicate insert against the migrated
    store. -/
theorem save_new_recipe_duplicate_noop_witness :
    wDup.name = some "Negroni" ∧
    "Negroni" ∈ wStore.recipes.map (fun r => r.name) ∧
    save_new_recipe wDup wStore = (false, wStore) :=
  ⟨rfl, by decide, save_new_recipe_duplicate_noop wDup wStore "Negroni" rfl (by decide)⟩

/-- Claim C1 counterexample: migrating a legacy record with all three
    flags false, empty `beer_type` and spirit `"Tequila"` inserts it with
    category `"Liquors"`, not the claimed `"Classics"` — the
    `category = 'Liquors'` assignment before the branch's `pass` is
    executed, so the branch is not a no-op. -/
theorem migrate_liquor_branch_counterexample :
    ((migrate_json_to_db [LegacyItem.obj wTequila] emptyStore).2.recipes.map
        (fun r => r.category)) = [some "Liquors"] ∧
    (some "Liquors" : Option String) ≠ some "Classics" := by
  exact ⟨by decide, by decide⟩

/-- Claim C1 (amended): for a legacy record with `is_cotw`, `is_craft` and
    `is_classic` false, empty `beer_type`, and spirit among the six liquor
    names, the classification step assigns `"Liquors"`, and migrating such
    a record under a fresh name inserts it with category `"Liquors"`. -/
theorem migrate_liquor_branch (r : LegacyRecord) (s : Store) (n : Nat) (s' : Store)
    (h1 : r.is_cotw = false) (h2 : r.is_craft = false) (h3 : r.is_classic = false)
    (h4 : r.beer_type = "")
    (h5 : r.spirit ∈ ["Tequila", "Vodka", "Gin", "Rum", "Whiskey", "Bourbon"])
    (h6 : r.name ∉ s.recipes.map (fun row => row.name))
    (h7 : migrate_json_to_db [LegacyItem.obj r] s = (some n, s')) :
    migrateCategory r = "Liquors" ∧
    s'.recipes.map (fun row => row.category) =
      s.recipes.map (fun row => row.category) ++ [some "Liquors"] := by
  have hcat : migrateCategory r = "Liquors" := by
    rw [migrateCategory_proj, h1, h2, h3, h4]
    simp only [List.mem_cons, List.not_mem_nil, or_false] at h5
    rcases h5 with h5 | h5 | h5 | h5 | h5 | h5 <;> rw [h5] <;> decide
  refine ⟨hcat, ?_⟩
  have hany : s.recipes.any (fun row => row.name = r.name) = false := by
    rw [List.any_eq_false]
    intro row hrow hname
    exact h6 (List.mem_map.mpr ⟨row, hrow, by simpa using hname⟩)
  simp only [migrate_json_to_db, migrateGo, migrateStep, hany,
    Bool.false_eq_true, if_false] at h7
  cases hms : migrateSpecRows r.spec_recipe s.nextIngredientId s.nextRecipeId with
  | error e => rw [hms] at h7; simp at h7
  | ok rows =>
    rw [hms] at h7
    simp only [] at h7
    have h72 : s' = _ := (Prod.mk.injEq _ _ _ _ |>.mp h7.symm).2
    rw [h72]
    simp [List.map_append, hcat]

/-- Witness for the amended C1 at a concrete record and store. -/
theorem migrate_liquor_branch_witness :
    wTequila.is_cotw = false ∧ wTequila.beer_type = "" ∧
    wTequila.spirit ∈ ["Tequila", "Vodka", "Gin", "Rum", "Whiskey", "Bourbon"] ∧
    wTequila.name ∉ emptyStore.recipes.map (fun row => row.name) ∧
    (migrateCategory wTequila = "Liquors" ∧
      (migrate_json_to_db [LegacyItem.obj wTequila] emptyStore).2.recipes.map
          (fun row => row.category) =
        emptyStore.recipes.map (fun row => row.category) ++ [some "Liquors"]) :=
  ⟨rfl, rfl, by decide, by decide,
   migrate_liquor_branch wTequila emptyStore 1 _ rfl rfl rfl rfl (by decide)
     (by decide) (by decide)⟩

/-- Claim C2 counterexample: with a malformed first snapshot entry, the
    following well-formed record is not migrated — the whole run aborts
    and the store stays empty, against the claim that the remaining
    records are still processed and inserted. -/
theorem migrate_abort_counterexample :
    migrate_json_to_db [LegacyItem.nonObj, LegacyItem.obj wNegroni] emptyStore =
      (none, emptyStore) ∧
    (migrate_json_to_db [LegacyItem.nonObj, LegacyItem.obj wNegroni]
        emptyStore).2.recipes.map (fun r => r.name) = [] := by
  exact ⟨by decide, by decide⟩

/-- Claim C2 (amended): an error while processing one snapshot record is
    caught only around the whole loop, so it aborts the entire migration:
    no remaining record is processed, and because `commit` is never
    reached the run's transaction is rolled back, returning the store
    unchanged with no count. -/
theorem migrate_abort_on_bad_record (items : List LegacyItem) (s : Store)
    (h : LegacyItem.nonObj ∈ items) :
    migrate_json_to_db items s = (none, s) := by
  unfold migrate_json_to_db
  rw [migrateGo_error_of_bad items h s 0]

/-- Witness for the amended C2: a bad entry after an already-present
    record still aborts, leaving the migrated store untouched. -/
theorem migrate_abort_on_bad_record_witness :
    LegacyItem.nonObj ∈ [LegacyItem.obj wNegroni, LegacyItem.nonObj] ∧
    migrate_json_to_db [LegacyItem.obj wNegroni, LegacyItem.nonObj] wStore =
      (none, wStore) :=
  ⟨by decide, migrate_abort_on_bad_record _ _ (by decide)⟩

lemma countP_clearCotw (menu : List MenuItem) (ie : Bool) (e : Option MenuItem)
    (nw : Bool) (p : String → Bool) :
    (clearCotw menu ie e nw).countP (fun d => p d.name) =
      menu.countP (fun d => p d.name) := by
  unfold clearCotw
  rw [List.countP_map]
  apply List.countP_congr
  intro d _
  simp [Function.comp, clearCotwItem_name]

/-- Claim C10: the add flow (add mode, non-empty name) appends the new
    record with no duplicate-name check: the number of records carrying the
    submitted name always grows by one, so a menu already containing that
    name ends up with at least two records of that name after saving. -/
theorem add_flow_no_duplicate_check (menu : List MenuItem) (f : FormData)
    (hne : f.name ≠ "")
    (hdup : 1 ≤ menu.countP (fun d => d.name == f.name)) :
    (submitForm menu false none f).countP (fun d => d.name == f.name) =
      menu.countP (fun d => d.name == f.name) + 1 ∧
    2 ≤ (submitForm menu false none f).countP (fun d => d.name == f.name) := by
  have hmain : (submitForm menu false none f).countP (fun d => d.name == f.name) =
      menu.countP (fun d => d.name == f.name) + 1 := by
    unfold submitForm
    rw [if_neg hne]
    simp only [Bool.false_eq_true, if_false]
    rw [List.countP_append]
    have hentry : ([mkEntry f false none].countP (fun d => d.name == f.name)) = 1 := by
      simp [List.countP_cons, mkEntry]
    rw [hentry]
    by_cases hc : f.is_cotw = true
    · rw [if_pos hc]
      exact congrArg (· + 1)
        (countP_clearCotw menu false none (isWineGroup f.spirit) (· == f.name))
    · rw [if_neg hc]
  exact ⟨hmain, by omega⟩

/-- Witness for C10 at a concrete one-record menu. -/
theorem add_flow_no_duplicate_check_witness :
    wFormMule.name ≠ "" ∧
    1 ≤ [wMule].countP (fun d => d.name == wFormMule.name) ∧
    2 ≤ (submitForm [wMule] false none wFormMule).countP
        (fun d => d.name == wFormMule.name) :=
  ⟨by decide, by decide,
   (add_flow_no_duplicate_check [wMule] wFormMule (by decide) (by decide)).2⟩

lemma migrateStep_ok (it : LegacyItem) (st : Store) (ins : Bool) (st1 : Store)
    (h : migrateStep it st = .ok (ins, st1)) :
    (∀ row ∈ st.recipes, row ∈ st1.recipes) ∧
    (∀ r, it = LegacyItem.obj r → ∃ row ∈ st1.recipes, row.name = r.name) := by
  cases it with
  | nonObj => simp [migrateStep] at h
  | obj r =>
    simp only [migrateStep] at h
    split at h
    · rename_i hany
      injection h with h1
      obtain ⟨h2, h3⟩ := Prod.mk.injEq _ _ _ _ |>.mp h1
      subst h3
      refine ⟨fun row hrow => hrow, ?_⟩
      intro r0 hr0
      injection hr0 with hr0
      subst hr0
      rcases List.any_eq_true.mp hany with ⟨row, hrow, hname⟩
      exact ⟨row, hrow, by simpa using hname⟩
    · split at h
      · simp at h
      · rename_i rows hrows
        injection h with h1
        obtain ⟨h2, h3⟩ := Prod.mk.injEq _ _ _ _ |>.mp h1
        constructor
        · intro row hrow
          rw [← h3]
          simp only [List.mem_append]
          exact Or.inl hrow
        · intro r0 hr0
          injection hr0 with hr0
          subst hr0
          refine ⟨{ id := st.nextRecipeId, name := r.name,
                    instructions := some r.instructions, glassware := none,
                    is_favorite := false, category := some (migrateCategory r),
                    description := none, image_url := none, price := none,
                    spirit := none }, ?_, rfl⟩
          rw [← h3]
          simp only [List.mem_append, List.mem_singleton]
          exact Or.inr trivial

lemma migrateGo_preserve (items : List LegacyItem) :
    ∀ st cnt cnt' st', migrateGo items st cnt = .ok (cnt', st') →
      (∀ row ∈ st.recipes, row ∈ st'.recipes) ∧
      (∀ r, LegacyItem.obj r ∈ items → ∃ row ∈ st'.recipes, row.name = r.name) ∧
      (∀ it ∈ items, it ≠ LegacyItem.nonObj) := by
  induction items with
  | nil =>
    intro st cnt cnt' st' h
    simp only [migrateGo] at h
    injection h with h1
    obtain ⟨h2, h3⟩ := Prod.mk.injEq _ _ _ _ |>.mp h1
    subst h3
    exact ⟨fun row hrow => hrow, fun r hr => absurd hr (List.not_mem_nil _),
      fun it hit => absurd hit (List.not_mem_nil _)⟩
  | cons it rest ih =>
    intro st cnt cnt' st' h
    simp only [migrateGo] at h
    split at h
    · simp at h
    · rename_i ins st1 hstep
      obtain ⟨mono1, cover1, nobad1⟩ := ih st1 _ cnt' st' h
      obtain ⟨monoS, coverS⟩ := migrateStep_ok it st ins st1 hstep
      refine ⟨fun row hrow => mono1 row (monoS row hrow), ?_, ?_⟩
      · intro r hr
        rcases List.mem_cons.mp hr with heq | htail
        · rcases coverS r heq.symm with ⟨row, hrow, hname⟩
          exact ⟨row, mono1 row hrow, hname⟩
        · exact cover1 r htail
      · intro it0 hit0
        rcases List.mem_cons.mp hit0 with heq | htail
        · subst heq
          intro hbad
          rw [hbad] at hstep
          simp [migrateStep] at hstep
        · exact nobad1 it0 htail

lemma migrateGo_skip_all (items : List LegacyItem) :
    ∀ st cnt,
      (∀ r, LegacyItem.obj r ∈ items → ∃ row ∈ st.recipes, row.name = r.name) →
      (∀ it ∈ items, it ≠ LegacyItem.nonObj) →
      migrateGo items st cnt = .ok (cnt, st) := by
  induction items with
  | nil => intro st cnt _ _; rfl
  | cons it rest ih =>
    intro st cnt hcover hnobad
    cases it with
    | nonObj => exact absurd rfl (hnobad _ (List.mem_cons_self _ _))
    | obj r =>
      have hany : st.recipes.any (fun row => row.name = r.name) = true := by
        rw [List.any_eq_true]
        rcases hcover r (List.mem_cons_self _ _) with ⟨row, hrow, hname⟩
        exact ⟨row, hrow, by simpa using hname⟩
      simp only [migrateGo, migrateStep, hany, if_true]
      exact ih st cnt (fun r0 hr0 => hcover r0 (List.mem_cons_of_mem _ hr0))
        (fun it0 hit0 => hnobad it0 (List.mem_cons_of_mem _ hit0))

/-- Claim C5: migration is idempotent — when a `migrate_json_to_db` run
    succeeds, running it again on the same snapshot against the store it
    produced skips every record (each name already exists), reports an
    insert count of 0, and leaves the store unchanged. -/
theorem migrate_idempotent (items : List LegacyItem) (s : Store) (n : Nat)
    (s₁ : Store) (h : migrate_json_to_db items s = (some n, s₁)) :
    migrate_json_to_db items s₁ = (some 0, s₁) := by
  unfold migrate_json_to_db at h ⊢
  cases hgo : migrateGo items s 0 with
  | error e => rw [hgo] at h; simp at h
  | ok x =>
    obtain ⟨cnt0, st0⟩ := x
    rw [hgo] at h
    simp only [Prod.mk.injEq, Option.some.injEq] at h
    obtain ⟨h1, h2⟩ := h
    subst h2
    obtain ⟨-, cover, nobad⟩ := migrateGo_preserve items s 0 cnt0 st0 hgo
    rw [migrateGo_skip_all items st0 0 cover nobad]

/-- Witness for C5: migrating a one-record snapshot twice. -/
theorem migrate_idempotent_witness :
    migrate_json_to_db [LegacyItem.obj wNegroni] emptyStore = (some 1, wStore) ∧
    migrate_json_to_db [LegacyItem.obj wNegroni] wStore = (some 0, wStore) :=
  ⟨by decide, migrate_idempotent [LegacyItem.obj wNegroni] emptyStore 1 wStore (by decide)⟩

lemma backfillRow_frame (rec : LegacyRecord) (row : RecipeRow) :
    (backfillRow rec row).name = row.name ∧
    (backfillRow rec row).category = row.category ∧
    (backfillRow rec row).instructions = row.instructions ∧
    (backfillRow rec row).glassware = row.glassware ∧
    (backfillRow rec row).is_favorite = row.is_favorite ∧
    (backfillRow rec row).id = row.id := by
  unfold backfillRow
  split <;> exact ⟨rfl, rfl, rfl, rfl, rfl, rfl⟩

lemma backfillRow_nomatch (rec : LegacyRecord) (row : RecipeRow)
    (h : rec.name ≠ row.name) : backfillRow rec row = row := by
  unfold backfillRow
  rw [if_neg]
  intro heq
  exact h heq.symm

lemma backfillGo_frame (items : List LegacyItem) :
    ∀ rows cnt cnt' rows', backfillGo items rows cnt = .ok (cnt', rows') →
      rows'.length = rows.length ∧
      ∀ (i : Nat) (r r' : RecipeRow), rows[i]? = some r → rows'[i]? = some r' →
        (r'.name = r.name ∧ r'.category = r.category ∧
         r'.instructions = r.instructions ∧ r'.glassware = r.glassware ∧
         r'.is_favorite = r.is_favorite ∧ r'.id = r.id) ∧
        ((∀ rec, LegacyItem.obj rec ∈ items → rec.name ≠ r.name) → r' = r) := by
  induction items with
  | nil =>
    intro rows cnt cnt' rows' h
    simp only [backfillGo] at h
    injection h with h1
    obtain ⟨h2, h3⟩ := Prod.mk.injEq _ _ _ _ |>.mp h1
    subst h3
    refine ⟨rfl, ?_⟩
    intro i r r' hr hr'
    rw [hr] at hr'
    injection hr' with hr'
    subst hr'
    exact ⟨⟨rfl, rfl, rfl, rfl, rfl, rfl⟩, fun _ => rfl⟩
  | cons it rest ih =>
    intro rows cnt cnt' rows' h
    cases it with
    | nonObj => simp [backfillGo] at h
    | obj rec =>
      simp only [backfillGo] at h
      obtain ⟨hlen, hfields⟩ := ih (backfillApply rec rows) _ cnt' rows' h
      constructor
      · rw [hlen]
        exact List.length_map _ _
      · intro i r r' hr hr'
        have hmid : (backfillApply rec rows)[i]? = some (backfillRow rec r) := by
          unfold backfillApply
          rw [List.getElem?_map, hr]
          rfl
        obtain ⟨hf, hunch⟩ := hfields i (backfillRow rec r) r' hmid hr'
        obtain ⟨f1, f2, f3, f4, f5, f6⟩ := backfillRow_frame rec r
        constructor
        · obtain ⟨g1, g2, g3, g4, g5, g6⟩ := hf
          exact ⟨g1.trans f1, g2.trans f2, g3.trans f3, g4.trans f4,
                 g5.trans f5, g6.trans f6⟩
        · intro hnames
          have hrec : rec.name ≠ r.name := hnames rec (List.mem_cons_self _ _)
          have hres := hunch (fun rec' h' => by
            rw [f1]
            exact hnames rec' (List.mem_cons_of_mem _ h'))
          rw [backfillRow_nomatch rec r hrec] at hres
          exact hres

/-- Claim C9: `backfill_details_from_json` modifies only the description,
    image_url, price and spirit fields of recipes whose name matches a
    snapshot record: the name, category, instructions (and id, glassware,
    favorite flag) of every recipe are unchanged, every recipe matching no
    snapshot name is returned verbatim, and the ingredient rows are
    untouched. -/
theorem backfill_frame (items : List LegacyItem) (s : Store) :
    (backfill_details_from_json items s).2.ingredients = s.ingredients ∧
    (backfill_details_from_json items s).2.recipes.length = s.recipes.length ∧
    ∀ (i : Nat) (r r' : RecipeRow), s.recipes[i]? = some r →
      (backfill_details_from_json items s).2.recipes[i]? = some r' →
      (r'.name = r.name ∧ r'.category = r.category ∧
       r'.instructions = r.instructions ∧ r'.glassware = r.glassware ∧
       r'.is_favorite = r.is_favorite ∧ r'.id = r.id) ∧
      ((∀ rec, LegacyItem.obj rec ∈ items → rec.name ≠ r.name) → r' = r) := by
  unfold backfill_details_from_json
  cases hgo : backfillGo items s.recipes 0 with
  | error e =>
    refine ⟨rfl, rfl, ?_⟩
    intro i r r' hr hr'
    rw [hr] at hr'
    injection hr' with hr'
    subst hr'
    exact ⟨⟨rfl, rfl, rfl, rfl, rfl, rfl⟩, fun _ => rfl⟩
  | ok x =>
    obtain ⟨cnt, rows'⟩ := x
    obtain ⟨hlen, hfields⟩ := backfillGo_frame items s.recipes 0 cnt rows' hgo
    exact ⟨rfl, hlen, hfields⟩

/-- Witness for C9: backfilling a snapshot that matches nothing leaves the
    concrete migrated store's row and ingredient table unchanged. -/
theorem backfill_frame_witness :
    wStore.recipes[0]? = some wRow ∧
    (backfill_details_from_json [LegacyItem.obj wTequila] wStore).2.recipes[0]? =
      some wRow ∧
    (backfill_details_from_json [LegacyItem.obj wTequila] wStore).2.ingredients =
      wStore.ingredients :=
  ⟨by decide, by decide, (backfill_frame [LegacyItem.obj wTequila] wStore).1⟩

lemma clearCotwItem_skip (ie : Bool) (e : Option MenuItem) (nw : Bool) (d : MenuItem)
    (h : ie = true ∧ e = some d) : clearCotwItem ie e nw d = d := by
  unfold clearCotwItem
  rw [if_pos h]

lemma clearCotwItem_same_group (ie : Bool) (e : Option MenuItem) (nw : Bool)
    (d : MenuItem) (hskip : ¬(ie = true ∧ e = some d))
    (hg : isWineGroup d.spirit = nw) :
    (clearCotwItem ie e nw d).is_cotw = false := by
  unfold clearCotwItem
  rw [if_neg hskip]
  cases nw with
  | true => rw [if_pos ⟨rfl, hg⟩]
  | false => rw [if_neg (by simp), if_pos ⟨rfl, hg⟩]

lemma clearCotwItem_other_group (ie : Bool) (e : Option MenuItem) (nw : Bool)
    (d : MenuItem) (hg : isWineGroup d.spirit ≠ nw) :
    clearCotwItem ie e nw d = d := by
  unfold clearCotwItem
  split
  · rfl
  · split
    · rename_i h2
      exact absurd (h2.2.trans h2.1.symm) hg
    · split
      · rename_i h3
        exact absurd (h3.2.trans h3.1.symm) hg
      · rfl

lemma clearCotwItem_cases (ie : Bool) (e : Option MenuItem) (nw : Bool) (d : MenuItem) :
    clearCotwItem ie e nw d = d ∨
    clearCotwItem ie e nw d = { d with is_cotw := false } := by
  unfold clearCotwItem
  split
  · exact Or.inl rfl
  · split
    · exact Or.inr rfl
    · split
      · exact Or.inr rfl
      · exact Or.inl rfl

lemma clearCotwItem_transport (ie : Bool) (e : Option MenuItem) (nw g0 : Bool)
    (d : MenuItem)
    (h : ((clearCotwItem ie e nw d).is_cotw &&
          (isWineGroup (clearCotwItem ie e nw d).spirit == g0)) = true) :
    clearCotwItem ie e nw d = d := by
  rcases clearCotwItem_cases ie e nw d with hc | hc
  · exact hc
  · rw [hc] at h
    simp at h

lemma clearCotwItem_cotw_skip (ie : Bool) (e : Option MenuItem) (nw : Bool)
    (d : MenuItem) (h : (clearCotwItem ie e nw d).is_cotw = true)
    (hg : isWineGroup d.spirit = nw) : ie = true ∧ e = some d := by
  by_contra hs
  rw [clearCotwItem_same_group ie e nw d hs hg] at h
  cases h

lemma countP_replaceFirst (l : List MenuItem) (e x : MenuItem) (p : MenuItem → Bool)
    (he : e ∈ l) :
    (replaceFirst l e x).countP p + (if p e then 1 else 0) =
      l.countP p + (if p x then 1 else 0) := by
  induction l with
  | nil => cases he
  | cons d t ih =>
    unfold replaceFirst
    by_cases hd : d = e
    · rw [if_pos hd]
      subst hd
      simp only [List.countP_cons]
      omega
    · rw [if_neg hd]
      simp only [List.countP_cons]
      have het : e ∈ t := by
        rcases List.mem_cons.mp he with h | h
        · exact absurd h.symm hd
        · exact h
      have := ih het
      omega

/-- Claim C6: when a record is submitted with `is_cotw` checked, the
    clearing pass sets `is_cotw` to false on every other record in the new
    record's type group, leaves every record of the other type group
    untouched, and skips the record being edited; and, given the
    at-most-one-featured-record-per-type-group invariant on the menu, the
    saved menu satisfies it again. -/
theorem submit_cotw_clearing (menu : List MenuItem) (isEdit : Bool)
    (editItem : Option MenuItem) (f : FormData)
    (hc : f.is_cotw = true) (hn : f.name ≠ "") :
    (∀ (i : Nat) (d d' : MenuItem), menu[i]? = some d →
        (clearCotw menu isEdit editItem (isWineGroup f.spirit))[i]? = some d' →
        ((¬(isEdit = true ∧ editItem = some d) →
            isWineGroup d.spirit = isWineGroup f.spirit → d'.is_cotw = false) ∧
         (isWineGroup d.spirit ≠ isWineGroup f.spirit → d' = d) ∧
         (isEdit = true ∧ editItem = some d → d' = d))) ∧
    (atMostOneCotw menu → atMostOneCotw (submitForm menu isEdit editItem f)) := by
  constructor
  · intro i d d' hd hd'
    have hd'' : d' = clearCotwItem isEdit editItem (isWineGroup f.spirit) d := by
      unfold clearCotw at hd'
      rw [List.getElem?_map, hd] at hd'
      simp only [Option.map_some'] at hd'
      injection hd' with hd'
      exact hd'.symm
    refine ⟨?_, ?_, ?_⟩
    · intro hskip hg
      rw [hd'']
      exact clearCotwItem_same_group _ _ _ _ hskip hg
    · intro hg
      rw [hd'']
      exact clearCotwItem_other_group _ _ _ _ hg
    · intro hskip
      rw [hd'']
      exact clearCotwItem_skip _ _ _ _ hskip
  · intro hinv g0
    have hentry_cotw : (mkEntry f isEdit editItem).is_cotw = true := by
      simp [mkEntry, hc]
    have hentry_spirit : (mkEntry f isEdit editItem).spirit = f.spirit := by
      simp [mkEntry]
    have hle : (clearCotw menu isEdit editItem (isWineGroup f.spirit)).countP
          (fun d => d.is_cotw && (isWineGroup d.spirit == g0)) ≤
        menu.countP (fun d => d.is_cotw && (isWineGroup d.spirit == g0)) := by
      unfold clearCotw
      rw [List.countP_map]
      apply List.countP_mono_left
      intro d _ hPd
      simp only [Function.comp] at hPd
      have ht := clearCotwItem_transport isEdit editItem (isWineGroup f.spirit) g0 d hPd
      rw [ht] at hPd
      exact hPd
    have hkey : ∀ d ∈ menu,
        ((clearCotwItem isEdit editItem (isWineGroup f.spirit) d).is_cotw &&
          (isWineGroup (clearCotwItem isEdit editItem (isWineGroup f.spirit) d).spirit
            == isWineGroup f.spirit)) = true →
        (isEdit = true ∧ editItem = some d) ∧
          clearCotwItem isEdit editItem (isWineGroup f.spirit) d = d := by
      intro d _ hPd
      have ht := clearCotwItem_transport isEdit editItem (isWineGroup f.spirit)
        (isWineGroup f.spirit) d hPd
      rw [ht] at hPd
      simp only [Bool.and_eq_true, beq_iff_eq] at hPd
      exact ⟨clearCotwItem_cotw_skip _ _ _ _ (by rw [ht]; exact hPd.1) hPd.2, ht⟩
    have hzero : g0 = isWineGroup f.spirit →
        (∀ d ∈ menu, (isEdit = true ∧ editItem = some d) →
            clearCotwItem isEdit editItem (isWineGroup f.spirit) d = d →
            ((d.is_cotw && (isWineGroup d.spirit == g0)) = true) → False) →
        (clearCotw menu isEdit editItem (isWineGroup f.spirit)).countP
            (fun d => d.is_cotw && (isWineGroup d.spirit == g0)) = 0 := by
      intro hg href
      rw [List.countP_eq_zero]
      intro d' hd' hPd'
      unfold clearCotw at hd'
      rcases List.mem_map.mp hd' with ⟨d, hd, hgd⟩
      rw [← hgd] at hPd'
      rw [hg] at hPd'
      rcases hkey d hd hPd' with ⟨hskip, ht⟩
      rw [ht] at hPd'
      exact href d hd hskip ht (by rw [hg]; exact hPd')
    simp only [submitForm, if_neg hn, hc, if_true]
    by_cases hg0 : g0 = isWineGroup f.spirit
    · have hPentry : ((mkEntry f isEdit editItem).is_cotw &&
          (isWineGroup (mkEntry f isEdit editItem).spirit == g0)) = true := by
        rw [hentry_cotw, hentry_spirit, hg0]
        simp
      by_cases hie : isEdit = true
      · rw [if_pos hie]
        cases editItem with
        | none =>
          simp only [applyEdit]
          have hz := hzero hg0 (fun d _ hskip _ _ => Option.noConfusion hskip.2)
          rw [List.countP_append, hz]
          simp [List.countP_cons, hPentry]
        | some e =>
          simp only [applyEdit]
          by_cases hmem : e ∈ clearCotw menu isEdit (some e) (isWineGroup f.spirit)
          · rw [if_pos hmem]
            have hrepl := countP_replaceFirst
              (clearCotw menu isEdit (some e) (isWineGroup f.spirit)) e
              (mkEntry f isEdit (some e))
              (fun d => d.is_cotw && (isWineGroup d.spirit == g0)) hmem
            simp only [hPentry, if_true] at hrepl
            by_cases hPe : (e.is_cotw && (isWineGroup e.spirit == g0)) = true
            · simp only [hPe, if_true] at hrepl
              have hmenu := hinv g0
              omega
            · have hz := hzero hg0 (fun d _ hskip ht hPd => by
                have hde : e = d := Option.some.injEq _ _ |>.mp hskip.2
                rw [← hde] at hPd
                exact hPe hPd)
              simp only [hz, hPe, if_false, Nat.zero_add] at hrepl
              omega
          · rw [if_neg hmem]
            have hz := hzero hg0 (fun d hd hskip ht hPd => by
              have hde : e = d := Option.some.injEq _ _ |>.mp hskip.2
              apply hmem
              have hmm : clearCotwItem isEdit (some e) (isWineGroup f.spirit) d ∈
                  clearCotw menu isEdit (some e) (isWineGroup f.spirit) :=
                List.mem_map_of_mem _ hd
              rw [ht, ← hde] at hmm
              exact hmm)
            rw [List.countP_append, hz]
            simp [List.countP_cons, hPentry]
      · rw [if_neg hie]
        have hz := hzero hg0 (fun d _ hskip _ _ => hie hskip.1)
        rw [List.countP_append, hz]
        simp [List.countP_cons, hPentry]
    · have hPentry : ((mkEntry f isEdit editItem).is_cotw &&
          (isWineGroup (mkEntry f isEdit editItem).spirit == g0)) = false := by
        rw [hentry_cotw, hentry_spirit]
        simp only [Bool.true_and, beq_eq_false_iff_ne]
        exact fun heq => hg0 heq.symm
      have hmenu := hinv g0
      by_cases hie : isEdit = true
      · rw [if_pos hie]
        cases editItem with
        | none =>
          simp only [applyEdit]
          rw [List.countP_append]
          simp [List.countP_cons, hPentry]
          omega
        | some e =>
          simp only [applyEdit]
          by_cases hmem : e ∈ clearCotw menu isEdit (some e) (isWineGroup f.spirit)
          · rw [if_pos hmem]
            have hrepl := countP_replaceFirst
              (clearCotw menu isEdit (some e) (isWineGroup f.spirit)) e
              (mkEntry f isEdit (some e))
              (fun d => d.is_cotw && (isWineGroup d.spirit == g0)) hmem
            simp [hPentry] at hrepl
            omega
          · rw [if_neg hmem]
            rw [List.countP_append]
            simp [List.countP_cons, hPentry]
            omega
      · rw [if_neg hie]
        rw [List.countP_append]
        simp [List.countP_cons, hPentry]
        omega

/-- Witness for C6 at a concrete featured submission over a two-record
    menu holding one featured record per group. -/
theorem submit_cotw_clearing_witness :
    wForm.is_cotw = true ∧ wForm.name ≠ "" ∧ [wChianti, wMule][0]? = some wChianti ∧
    (clearCotw [wChianti, wMule] false none (isWineGroup wForm.spirit))[0]? =
      some { wChianti with is_cotw := false } ∧
    atMostOneCotw [wChianti, wMule] ∧
    atMostOneCotw (submitForm [wChianti, wMule] false none wForm) :=
  ⟨rfl, by decide, by decide, by decide, by intro g; cases g <;> decide,
   (submit_cotw_clearing [wChianti, wMule] false none wForm rfl (by decide)).2
     (by intro g; cases g <;> decide)⟩

lemma dropWhile_idem (p : Char → Bool) (l : List Char) :
    (l.dropWhile p).dropWhile p = l.dropWhile p := by
  induction l with
  | nil => rfl
  | cons c t ih =>
    by_cases h : p c
    · simp [List.dropWhile_cons, h, ih]
    · simp [List.dropWhile_cons, h]

lemma dropWhile_eq_self_of_head (p : Char → Bool) (l : List Char)
    (h : ∀ c, l.head? = some c → p c = false) : l.dropWhile p = l := by
  cases l with
  | nil => rfl
  | cons c t => simp [List.dropWhile_cons, h c rfl]

lemma dropWhile_isSuffix (p : Char → Bool) (l : List Char) :
    l.dropWhile p <:+ l := by
  induction l with
  | nil => exact List.suffix_refl _
  | cons c t ih =>
    by_cases h : p c
    · rw [List.dropWhile_cons_of_pos h]
      exact ih.trans (List.suffix_cons _ _)
    · rw [List.dropWhile_cons_of_neg h]

lemma stripChars_idem (l : List Char) : stripChars (stripChars l) = stripChars l := by
  show stripChars (((l.dropWhile isSpaceC).reverse.dropWhile isSpaceC).reverse) =
    ((l.dropWhile isSpaceC).reverse.dropWhile isSpaceC).reverse
  unfold stripChars
  have h1 : ((l.dropWhile isSpaceC).reverse.dropWhile isSpaceC).reverse.dropWhile
      isSpaceC = ((l.dropWhile isSpaceC).reverse.dropWhile isSpaceC).reverse := by
    apply dropWhile_eq_self_of_head
    intro c hc
    rw [List.head?_reverse] at hc
    obtain ⟨u, hu⟩ := dropWhile_isSuffix isSpaceC (l.dropWhile isSpaceC).reverse
    have hne : (l.dropWhile isSpaceC).reverse.dropWhile isSpaceC ≠ [] := by
      intro hnil
      rw [hnil] at hc
      cases hc
    have hlast : (l.dropWhile isSpaceC).reverse.getLast? = some c := by
      rw [← hu, List.getLast?_append_of_ne_nil u hne, hc]
    rw [List.getLast?_reverse] at hlast
    have := List.head?_dropWhile_not isSpaceC l
    rw [hlast] at this
    exact this
  rw [h1, List.reverse_reverse, dropWhile_idem]

/-- Claim C3 counterexample: on the line `"1.2.3 oz Gin"` the regex of
    `parse_spec_line` matches with group 1 = `"1.2.3"`, and
    `float("1.2.3")` raises a `ValueError` — the function does not return
    a triple for every input line. -/
theorem parse_spec_line_counterexample :
    isErr (parse_spec_line "1.2.3 oz Gin") = true := by decide

/-- Claim C3 (amended): `parse_spec_line` returns a triple without raising
    for every line whose leading `[\d\.]+` token, when the pattern
    matches, is a well-formed float (at most one dot, at least one digit);
    and on every line where the pattern fails to match it returns
    `(0, "", line)` with the whole original line as the ingredient. -/
theorem parse_spec_line_total (line : String)
    (hdot : (line.data.takeWhile specClass).count '.' ≤ 1)
    (hdig : line.data.takeWhile specClass = [] ∨
      (line.data.takeWhile specClass).any isDigitC = true) :
    (∃ t, parse_spec_line line = .ok t) ∧
    (matchesSpecShape line = false → parse_spec_line line = .ok (0, "", line)) := by
  unfold parse_spec_line
  by_cases hemp : (line.data.takeWhile specClass).isEmpty
  · rw [if_pos hemp]
    exact ⟨⟨_, rfl⟩, fun _ => rfl⟩
  · rw [if_neg hemp]
    have hdig' : (line.data.takeWhile specClass).any isDigitC = true := by
      rcases hdig with h | h
      · exact absurd (by rw [h]; rfl) hemp
      · exact h
    have hfv : ∃ v, floatVal (line.data.takeWhile specClass) = .ok v := by
      unfold floatVal
      rw [if_pos]
      · exact ⟨_, rfl⟩
      · simp only [Bool.and_eq_true, decide_eq_true_eq]
        exact ⟨hdot, hdig'⟩
    obtain ⟨v, hv⟩ := hfv
    cases hfu : findUnitSpec ((line.data.dropWhile specClass).dropWhile isSpaceC) with
    | some pr =>
      obtain ⟨ustr, after⟩ := pr
      constructor
      · rw [hv]
        exact ⟨_, rfl⟩
      · intro hshape
        simp [matchesSpecShape, hfu, hemp] at hshape
    | none =>
      by_cases hW : ((line.data.dropWhile specClass).takeWhile isSpaceC).isEmpty
      · rw [if_pos hW]
        exact ⟨⟨_, rfl⟩, fun _ => rfl⟩
      · rw [if_neg hW]
        constructor
        · rw [hv]
          exact ⟨_, rfl⟩
        · intro hshape
          simp [matchesSpecShape, hfu, hemp, hW] at hshape

/-- Witness for the amended C3 at a line with no leading number. -/
theorem parse_spec_line_total_witness :
    ("Splash of soda".data.takeWhile specClass).count '.' ≤ 1 ∧
    parse_spec_line "Splash of soda" = .ok (0, "", "Splash of soda") :=
  ⟨by decide,
   (parse_spec_line_total "Splash of soda" (by decide) (by decide)).2 (by decide)⟩

lemma subLeading_eq_self_of_head (l : List Char)
    (h : ∀ c, l.head? = some c → cleanClass c = false) : subLeading l = l := by
  have hT : (l.takeWhile cleanClass).isEmpty = true := by
    cases l with
    | nil => rfl
    | cons c t => simp [List.takeWhile_cons, h c rfl]
  unfold subLeading
  rw [if_pos hT]

/-- Claim C4 counterexample: `clean_ingredient_name` is not idempotent —
    cleaning `"1.5 oz 7 Up"` gives `"7 Up"`, and cleaning that again
    strips the `7` and gives `"Up"`. -/
theorem clean_ingredient_name_counterexample :
    clean_ingredient_name "1.5 oz 7 Up" = "7 Up" ∧
    clean_ingredient_name (clean_ingredient_name "1.5 oz 7 Up") = "Up" ∧
    clean_ingredient_name (clean_ingredient_name "1.5 oz 7 Up") ≠
      clean_ingredient_name "1.5 oz 7 Up" :=
  ⟨by decide, by decide, by decide⟩

/-- Claim C4 (amended): `clean_ingredient_name` is idempotent on every line
    whose cleaned output is empty or does not begin with a character of the
    class `[0-9.\s/]`; when the output begins with such a character (e.g. an
    ingredient name starting with a digit), a second application strips
    further. -/
theorem clean_ingredient_name_idem (line : String)
    (h : ∀ c, (clean_ingredient_name line).data.head? = some c →
      cleanClass c = false) :
    clean_ingredient_name (clean_ingredient_name line) =
      clean_ingredient_name line := by
  unfold clean_ingredient_name
  apply congrArg String.mk
  have hsub : subLeading (stripChars (subLeading line.data)) =
      stripChars (subLeading line.data) := by
    apply subLeading_eq_self_of_head
    intro c hc
    exact h c hc
  rw [hsub]
  exact stripChars_idem _

/-- Witness for the amended C4 at a line whose cleaned output starts with
    a letter. -/
theorem clean_ingredient_name_idem_witness :
    clean_ingredient_name (clean_ingredient_name "Muddled basil leaves") =
      clean_ingredient_name "Muddled basil leaves" :=
  clean_ingredient_name_idem "Muddled basil leaves" (by
    intro c hc
    rw [show (clean_ingredient_name "Muddled basil leaves").data.head? = some 'M'
      from by decide] at hc
    injection hc with h
    rw [← h]
    decide)

lemma space_not_digit {c : Char} (h : isSpaceC c = true) : isDigitC c = false := by
  rw [Bool.eq_false_iff]
  intro hc
  simp only [isSpaceC, Bool.or_eq_true, decide_eq_true_eq] at h
  simp only [isDigitC, Bool.and_eq_true, decide_eq_true_eq] at hc
  omega

lemma unit_not_digit {c : Char} (h : (ciEq 'm' c || ciEq 'c' c) = true) :
    isDigitC c = false := by
  rw [Bool.eq_false_iff]
  intro hc
  simp only [ciEq, Bool.or_eq_true, decide_eq_true_eq,
    show ('m' : Char).toNat = 109 from rfl,
    show ('c' : Char).toNat = 99 from rfl] at h
  simp only [isDigitC, Bool.and_eq_true, decide_eq_true_eq] at hc
  omega

lemma unit_not_space {c : Char} (h : (ciEq 'm' c || ciEq 'c' c) = true) :
    isSpaceC c = false := by
  rw [Bool.eq_false_iff]
  intro hc
  simp only [ciEq, Bool.or_eq_true, decide_eq_true_eq,
    show ('m' : Char).toNat = 109 from rfl,
    show ('c' : Char).toNat = 99 from rfl] at h
  simp only [isSpaceC, Bool.or_eq_true, decide_eq_true_eq] at hc
  omega

lemma unit_not_dot {c : Char} (h : (ciEq 'm' c || ciEq 'c' c) = true) :
    c ≠ '.' := by
  intro heq
  rw [heq] at h
  exact absurd h (by decide)

lemma space_not_dot {c : Char} (h : isSpaceC c = true) : c ≠ '.' := by
  intro heq
  rw [heq] at h
  exact absurd h (by decide)

lemma digit_not_m {c : Char} (h : isDigitC c = true) : ciEq 'm' c = false := by
  rw [Bool.eq_false_iff]
  intro hc
  simp only [isDigitC, Bool.and_eq_true, decide_eq_true_eq] at h
  simp only [ciEq, Bool.or_eq_true, decide_eq_true_eq,
    show ('m' : Char).toNat = 109 from rfl] at hc
  omega

lemma digit_not_c {c : Char} (h : isDigitC c = true) : ciEq 'c' c = false := by
  rw [Bool.eq_false_iff]
  intro hc
  simp only [isDigitC, Bool.and_eq_true, decide_eq_true_eq] at h
  simp only [ciEq, Bool.or_eq_true, decide_eq_true_eq,
    show ('c' : Char).toNat = 99 from rfl] at hc
  omega

lemma digit_not_l {c : Char} (h : isDigitC c = true) : ciEq 'l' c = false := by
  rw [Bool.eq_false_iff]
  intro hc
  simp only [isDigitC, Bool.and_eq_true, decide_eq_true_eq] at h
  simp only [ciEq, Bool.or_eq_true, decide_eq_true_eq,
    show ('l' : Char).toNat = 108 from rfl] at hc
  omega

lemma matchSet_digit {c : Char} (h : isDigitC c = true) : matchSet c = true := by
  simp [matchSet, h]

lemma matchSet_space {c : Char} (h : isSpaceC c = true) : matchSet c = true := by
  simp [matchSet, h]

lemma matchSet_mc {c : Char} (h : (ciEq 'm' c || ciEq 'c' c) = true) :
    matchSet c = true := by
  cases hm : ciEq 'm' c with
  | true => simp [matchSet, hm]
  | false =>
    cases hcc : ciEq 'c' c with
    | true => simp [matchSet, hcc]
    | false =>
      rw [hm, hcc] at h
      cases h

lemma matchSet_l {c : Char} (h : ciEq 'l' c = true) : matchSet c = true := by
  simp [matchSet, h]

lemma mem_of_head?_eq {l : List Char} {a : Char} (h : l.head? = some a) : a ∈ l := by
  cases l with
  | nil => cases h
  | cons b t =>
    injection h with h
    rw [← h]
    exact List.mem_cons_self _ _

lemma mem_of_getLast?_eq {l : List Char} {a : Char} (h : l.getLast? = some a) :
    a ∈ l := by
  rw [← List.head?_reverse] at h
  exact List.mem_reverse.mp (mem_of_head?_eq h)

lemma head?_append_of_ne_nil {l1 l2 : List Char} {a : Char}
    (h : l1.head? = some a) : (l1 ++ l2).head? = some a := by
  cases l1 with
  | nil => cases h
  | cons b t => simpa using h

lemma getLast?_of_suffix {r l : List Char} (h : r <:+ l) (hne : r ≠ []) :
    l.getLast? = r.getLast? := by
  obtain ⟨u, hu⟩ := h
  rw [← hu]
  exact List.getLast?_append_of_ne_nil u hne

lemma takeWhile_of_all_append (p : Char → Bool) (l1 l2 : List Char)
    (h1 : ∀ c ∈ l1, p c = true) (h2 : ∀ c, l2.head? = some c → p c = false) :
    (l1 ++ l2).takeWhile p = l1 ∧ (l1 ++ l2).dropWhile p = l2 := by
  induction l1 with
  | nil =>
    constructor
    · cases l2 with
      | nil => rfl
      | cons c t => simp [List.takeWhile_cons, h2 c rfl]
    · cases l2 with
      | nil => rfl
      | cons c t => simp [List.dropWhile_cons, h2 c rfl]
  | cons x xs ih =>
    have hx : p x = true := h1 x (List.mem_cons_self _ _)
    obtain ⟨iht, ihd⟩ := ih (fun c hc => h1 c (List.mem_cons_of_mem _ hc))
    constructor
    · simp [List.takeWhile_cons, hx, iht]
    · simp [List.dropWhile_cons, hx, ihd]

lemma fracSplit_no_dot (r : List Char) (h : ∀ c, r.head? = some c → c ≠ '.') :
    fracSplit r = ([], r) := by
  cases r with
  | nil => rfl
  | cons c t =>
    unfold fracSplit
    split
    · rename_i t' heq
      injection heq with h1 h2
      exact absurd h1 (h c rfl)
    · rfl

lemma scanG_cons_some (rf : ℚ → Bool → List Char) (c : Char) (t : List Char)
    (v : ℚ) (b : Bool) (rest : List Char)
    (h : tryMatchML (c :: t) = some (v, b, rest)) :
    scanG rf (c :: t) = rf v b ++ scanG rf rest := by
  conv_lhs => unfold scanG
  split
  · rename_i v' b' rest' heq
    rw [heq] at h
    injection h with h1
    obtain ⟨h2, h3⟩ := Prod.mk.injEq _ _ _ _ |>.mp h1
    obtain ⟨h4, h5⟩ := Prod.mk.injEq _ _ _ _ |>.mp h3
    rw [h2, h4, h5]
  · rename_i heq
    rw [heq] at h
    cases h

lemma scanG_cons_none (rf : ℚ → Bool → List Char) (c : Char) (t : List Char)
    (h : tryMatchML (c :: t) = none) :
    scanG rf (c :: t) = c :: scanG rf t := by
  conv_lhs => unfold scanG
  split
  · rename_i v' b' rest' heq
    rw [heq] at h
    cases h
  · rfl

lemma unitSplit_some_decomp (r : List Char) (a u : Char) (rest : List Char)
    (h : unitSplit r = some (a, u, rest)) :
    ∃ ws, r = ws ++ a :: u :: rest ∧ (∀ c ∈ ws, isSpaceC c = true) ∧
      (ciEq 'm' a || ciEq 'c' a) = true ∧ ciEq 'l' u = true := by
  unfold unitSplit at h
  split at h
  · rename_i a' b' rest' heq
    split at h
    · rename_i hcond
      injection h with h1
      obtain ⟨ha', h2⟩ := Prod.mk.injEq _ _ _ _ |>.mp h1
      obtain ⟨hb', hrest'⟩ := Prod.mk.injEq _ _ _ _ |>.mp h2
      simp only [Bool.and_eq_true] at hcond
      refine ⟨r.takeWhile isSpaceC, ?_, ?_, ?_, ?_⟩
      · conv_lhs => rw [← List.takeWhile_append_dropWhile isSpaceC r]
        rw [heq, ha', hb', hrest']
      · intro c hc
        exact List.mem_takeWhile_imp hc
      · rw [← ha']
        exact hcond.1
      · rw [← hb']
        exact hcond.2
    · cases h
  · cases h

lemma tryMatchML_some_decomp {l : List Char} {v : ℚ} {b : Bool} {rest : List Char}
    (h : tryMatchML l = some (v, b, rest)) :
    ∃ d1 dotp ws a u,
      l = d1 ++ (dotp ++ (ws ++ a :: u :: rest)) ∧
      d1 ≠ [] ∧ (∀ c ∈ d1, isDigitC c = true) ∧
      (dotp = [] ∨ ∃ fr, dotp = '.' :: fr ∧ ∀ c ∈ fr, isDigitC c = true) ∧
      (∀ c ∈ ws, isSpaceC c = true) ∧
      (ciEq 'm' a || ciEq 'c' a) = true ∧ ciEq 'l' u = true := by
  unfold tryMatchML at h
  split at h
  · cases h
  · rename_i hne
    split at h
    · rename_i a0 u0 rest0 hu
      injection h with h1
      obtain ⟨hv, h2⟩ := Prod.mk.injEq _ _ _ _ |>.mp h1
      obtain ⟨hb, hrest⟩ := Prod.mk.injEq _ _ _ _ |>.mp h2
      rcases unitSplit_some_decomp _ _ _ _ hu with ⟨ws, hr2, hws, ha, hul⟩
      rw [hrest] at hr2
      have hl : l = l.takeWhile isDigitC ++ l.dropWhile isDigitC :=
        (List.takeWhile_append_dropWhile _ _).symm
      have hd1mem : ∀ c ∈ l.takeWhile isDigitC, isDigitC c = true :=
        fun c hc => List.mem_takeWhile_imp hc
      by_cases hdot : ∃ t, l.dropWhile isDigitC = '.' :: t
      · obtain ⟨t, heq⟩ := hdot
        have hfs2 : (fracSplit (l.dropWhile isDigitC)).2 = t.dropWhile isDigitC := by
          rw [heq]
          rfl
        rw [hfs2] at hr2
        refine ⟨l.takeWhile isDigitC, '.' :: t.takeWhile isDigitC, ws, a0, u0,
          ?_, hne, hd1mem, ?_, hws, ha, hul⟩
        · conv_lhs => rw [hl, heq]
          have ht : t = t.takeWhile isDigitC ++ t.dropWhile isDigitC :=
            (List.takeWhile_append_dropWhile _ _).symm
          rw [show ('.' :: t.takeWhile isDigitC) ++ (ws ++ a0 :: u0 :: rest) =
            '.' :: (t.takeWhile isDigitC ++ (ws ++ a0 :: u0 :: rest)) from rfl]
          rw [← hr2, ← ht]
        · exact Or.inr ⟨t.takeWhile isDigitC, rfl,
            fun c hc => List.mem_takeWhile_imp hc⟩
      · have hfs : fracSplit (l.dropWhile isDigitC) = ([], l.dropWhile isDigitC) := by
          apply fracSplit_no_dot
          intro c hc heqc
          apply hdot
          cases hX : l.dropWhile isDigitC with
          | nil => rw [hX] at hc; cases hc
          | cons x xs =>
            rw [hX] at hc
            injection hc with hc
            exact ⟨xs, by rw [hc, heqc]⟩
        rw [hfs] at hr2
        refine ⟨l.takeWhile isDigitC, [], ws, a0, u0, ?_, hne, hd1mem,
          Or.inl rfl, hws, ha, hul⟩
        conv_lhs => rw [hl]
        rw [List.nil_append, ← hr2]
    · cases h

lemma tryMatchML_nil : tryMatchML [] = none := rfl

lemma scanG_nil (rf : ℚ → Bool → List Char) : scanG rf [] = [] := by
  unfold scanG
  rfl

lemma suffix_append_cases {s A B : List Char} (h : s <:+ A ++ B) :
    s <:+ B ∨ ∃ s1, s1 <:+ A ∧ s1 ≠ [] ∧ s = s1 ++ B := by
  induction A with
  | nil => exact Or.inl (by simpa using h)
  | cons x A' ih =>
    rw [List.cons_append, List.suffix_cons_iff] at h
    cases h with
    | inl h => exact Or.inr ⟨x :: A', List.suffix_refl _, by simp, by rw [h]; simp⟩
    | inr h =>
      cases ih h with
      | inl h2 => exact Or.inl h2
      | inr h2 =>
        obtain ⟨s1, hs1, hne, hseq⟩ := h2
        exact Or.inr ⟨s1, hs1.trans (List.suffix_cons _ _), hne, hseq⟩

lemma matchP_all {d1 dotp ws : List Char} {a u : Char}
    (hd1 : ∀ c ∈ d1, isDigitC c = true)
    (hdotp : dotp = [] ∨ ∃ fr, dotp = '.' :: fr ∧ ∀ c ∈ fr, isDigitC c = true)
    (hws : ∀ c ∈ ws, isSpaceC c = true)
    (ha : (ciEq 'm' a || ciEq 'c' a) = true) (hu : ciEq 'l' u = true) :
    ∀ ch ∈ d1 ++ (dotp ++ (ws ++ [a, u])), matchSet ch = true := by
  intro ch hch
  simp only [List.mem_append] at hch
  rcases hch with h | h | h | h
  · exact matchSet_digit (hd1 ch h)
  · rcases hdotp with rfl | ⟨fr, rfl, hfr⟩
    · cases h
    · rw [List.mem_cons] at h
      rcases h with rfl | h
      · decide
      · exact matchSet_digit (hfr ch h)
  · exact matchSet_space (hws ch h)
  · rw [List.mem_cons, List.mem_singleton] at h
    rcases h with rfl | rfl
    · exact matchSet_mc ha
    · exact matchSet_l hu

lemma fracSplit_cons_dot (t : List Char) :
    fracSplit ('.' :: t) = (t.takeWhile isDigitC, t.dropWhile isDigitC) := rfl

lemma unitSplit_of_parts (ws : List Char) (a u : Char) (r : List Char)
    (hws : ∀ c ∈ ws, isSpaceC c = true)
    (ha : (ciEq 'm' a || ciEq 'c' a) = true) (hu : ciEq 'l' u = true) :
    unitSplit (ws ++ a :: u :: r) = some (a, u, r) := by
  unfold unitSplit
  have hdrop : (ws ++ a :: u :: r).dropWhile isSpaceC = a :: u :: r :=
    (takeWhile_of_all_append isSpaceC ws (a :: u :: r) hws
      (fun c hc => by injection hc with hc; rw [← hc]; exact unit_not_space ha)).2
  rw [hdrop]
  show (if ((ciEq 'm' a || ciEq 'c' a) && ciEq 'l' u) = true then some (a, u, r)
    else none) = some (a, u, r)
  rw [ha, hu]
  rfl

lemma tryMatchML_some_of_decomp (d1 dotp ws : List Char) (a u : Char)
    (r : List Char) (hne : d1 ≠ []) (hd1 : ∀ c ∈ d1, isDigitC c = true)
    (hdotp : dotp = [] ∨ ∃ fr, dotp = '.' :: fr ∧ ∀ c ∈ fr, isDigitC c = true)
    (hws : ∀ c ∈ ws, isSpaceC c = true)
    (ha : (ciEq 'm' a || ciEq 'c' a) = true) (hu : ciEq 'l' u = true) :
    tryMatchML (d1 ++ (dotp ++ (ws ++ a :: u :: r))) ≠ none := by
  have hheadX : ∀ c, (dotp ++ (ws ++ a :: u :: r)).head? = some c →
      isDigitC c = false := by
    intro c hc
    rcases hdotp with rfl | ⟨fr, hfr, _⟩
    · rw [List.nil_append] at hc
      cases ws with
      | nil =>
        injection hc with hc
        rw [← hc]
        exact unit_not_digit ha
      | cons w ws' =>
        injection hc with hc
        rw [← hc]
        exact space_not_digit (hws w (List.mem_cons_self _ _))
    · rw [hfr] at hc
      injection hc with hc
      rw [← hc]
      decide
  obtain ⟨htw, hdw⟩ := takeWhile_of_all_append isDigitC d1
    (dotp ++ (ws ++ a :: u :: r)) hd1 hheadX
  have hfs2 : (fracSplit ((d1 ++ (dotp ++ (ws ++ a :: u :: r))).dropWhile
      isDigitC)).2 = ws ++ a :: u :: r := by
    rw [hdw]
    rcases hdotp with rfl | ⟨fr, hfr, hfrd⟩
    · rw [List.nil_append]
      rw [fracSplit_no_dot]
      intro c hc
      cases ws with
      | nil =>
        injection hc with hc
        rw [← hc]
        exact unit_not_dot ha
      | cons w ws' =>
        injection hc with hc
        rw [← hc]
        exact space_not_dot (hws w (List.mem_cons_self _ _))
    · rw [hfr, List.cons_append, fracSplit_cons_dot]
      exact (takeWhile_of_all_append isDigitC fr (ws ++ a :: u :: r) hfrd
        (fun c hc => by
          cases ws with
          | nil =>
            injection hc with hc
            rw [← hc]
            exact unit_not_digit ha
          | cons w ws' =>
            injection hc with hc
            rw [← hc]
            exact space_not_digit (hws w (List.mem_cons_self _ _)))).2
  have hunit : unitSplit (fracSplit ((d1 ++ (dotp ++ (ws ++ a :: u :: r))).dropWhile
      isDigitC)).2 = some (a, u, r) := by
    rw [hfs2]
    exact unitSplit_of_parts ws a u r hws ha hu
  intro hcontra
  unfold tryMatchML at hcontra
  rw [htw, if_neg hne, hunit] at hcontra
  exact Option.noConfusion hcontra

lemma tryMatchML_rest_lt {l : List Char} {v : ℚ} {b : Bool} {rest : List Char}
    (h : tryMatchML l = some (v, b, rest)) : rest.length < l.length := by
  obtain ⟨d1, dotp, ws, a, u, hdec, hd1ne, _⟩ := tryMatchML_some_decomp h
  have hpos : 0 < d1.length := List.length_pos.mpr hd1ne
  rw [hdec]
  simp only [List.length_append, List.length_cons]
  omega

lemma prefix_transfer (rf : ℚ → Bool → List Char) (hok : ReplOK rf) :
    ∀ t P r, (∀ ch ∈ P, matchSet ch = true) →
    ((∃ pre a u, P = pre ++ [a, u] ∧ (ciEq 'm' a || ciEq 'c' a) = true ∧
        ciEq 'l' u = true) ∨ (∃ u, P = [u] ∧ ciEq 'l' u = true)) →
    P ++ r = scanG rf t →
    ∃ r0, t = P ++ r0 := by
  intro t
  induction t with
  | nil =>
    intro P r hms hshape heq
    rw [scanG_nil] at heq
    have hP : P = [] := (List.append_eq_nil.mp heq).1
    rcases hshape with ⟨pre, a, u, hPeq, _, _⟩ | ⟨u, hPeq, _⟩
    · rw [hP] at hPeq
      exact absurd hPeq.symm (by simp)
    · rw [hP] at hPeq
      exact absurd hPeq.symm (by simp)
  | cons c t' ih =>
    intro P r hms hshape heq
    cases hm : tryMatchML (c :: t') with
    | some val =>
      obtain ⟨v, b, rest⟩ := val
      rw [scanG_cons_some rf c t' v b rest hm] at heq
      exfalso
      obtain ⟨hbne, hnomc, ⟨z, hz, hzm⟩, ⟨h0, hh0, h0l⟩⟩ := hok v b
      rcases List.append_eq_append_iff.mp heq with ⟨w, hw1, _⟩ | ⟨w, hw1, _⟩
      · rcases hshape with ⟨pre, a, u, hPeq, ha, hu⟩ | ⟨u, hPeq, hu⟩
        · have haP : a ∈ P := by
            rw [hPeq]
            simp
          have haB : a ∈ rf v b := by
            rw [hw1]
            exact List.mem_append_left _ haP
          obtain ⟨hm1, hm2⟩ := hnomc a haB
          rw [hm1, hm2] at ha
          cases ha
        · have hhead : (rf v b).head? = some u := by
            rw [hw1, hPeq]
            rfl
          rw [hhead] at hh0
          injection hh0 with hh0
          rw [← hh0] at h0l
          rw [h0l] at hu
          cases hu
      · have hzP : z ∈ P := by
          rw [hw1]
          exact List.mem_append_left _ (mem_of_getLast?_eq hz)
        rw [hms z hzP] at hzm
        cases hzm
    | none =>
      rw [scanG_cons_none rf c t' hm] at heq
      rcases hshape with ⟨pre, a, u, hPeq, ha, hu⟩ | ⟨u, hPeq, hu⟩
      · cases pre with
        | nil =>
          rw [hPeq] at heq
          simp only [List.nil_append, List.cons_append] at heq
          injection heq with h1 h2
          have hrec := ih [u] r
            (by
              intro ch hch
              rw [List.mem_singleton] at hch
              rw [hch]
              exact matchSet_l hu)
            (Or.inr ⟨u, rfl, hu⟩) (by simpa using h2)
          obtain ⟨r0, hr0⟩ := hrec
          refine ⟨r0, ?_⟩
          rw [hPeq, ← h1, hr0]
          simp
        | cons p0 pre' =>
          rw [hPeq] at heq
          rw [List.cons_append, List.cons_append] at heq
          injection heq with h1 h2
          have hms' : ∀ ch ∈ pre' ++ [a, u], matchSet ch = true := by
            intro ch hch
            apply hms
            rw [hPeq, List.cons_append]
            exact List.mem_cons_of_mem _ hch
          have hrec := ih (pre' ++ [a, u]) r hms'
            (Or.inl ⟨pre', a, u, rfl, ha, hu⟩) h2
          obtain ⟨r0, hr0⟩ := hrec
          refine ⟨r0, ?_⟩
          rw [hPeq, List.cons_append, ← h1, hr0]
          simp
      · rw [hPeq] at heq
        simp only [List.cons_append, List.nil_append] at heq
        injection heq with h1 h2
        refine ⟨t', ?_⟩
        rw [hPeq, ← h1]
        rfl

lemma scanG_no_match (rf : ℚ → Bool → List Char) (hok : ReplOK rf) :
    ∀ n l, l.length ≤ n → ∀ s, s <:+ scanG rf l → tryMatchML s = none := by
  intro n
  induction n with
  | zero =>
    intro l hl s hs
    have hleq : l = [] := List.length_eq_zero.mp (Nat.le_zero.mp hl)
    rw [hleq, scanG_nil] at hs
    rw [List.suffix_nil.mp hs]
    exact tryMatchML_nil
  | succ n ih =>
    intro l hl s hs
    cases l with
    | nil =>
      rw [scanG_nil] at hs
      rw [List.suffix_nil.mp hs]
      exact tryMatchML_nil
    | cons c t =>
      cases hm : tryMatchML (c :: t) with
      | some val =>
        obtain ⟨v, b, rest⟩ := val
        rw [scanG_cons_some rf c t v b rest hm] at hs
        have hrest : rest.length ≤ n := by
          have hlt := tryMatchML_rest_lt hm
          simp only [List.length_cons] at hlt hl
          omega
        rcases suffix_append_cases hs with hsB | ⟨s1, hs1suf, hs1ne, hseq⟩
        · exact ih rest hrest s hsB
        · cases hmm : tryMatchML s with
          | none => rfl
          | some val2 =>
            exfalso
            obtain ⟨v2, b2, r2⟩ := val2
            obtain ⟨d1, dotp, ws, a, u, hdec, hd1ne, hd1dig, hdotp, hws, hha, hhu⟩ :=
              tryMatchML_some_decomp hmm
            obtain ⟨hbne, hnomc, ⟨z, hz, hzm⟩, _⟩ := hok v b
            have hzlast : s1.getLast? = some z := by
              rw [← getLast?_of_suffix hs1suf hs1ne]
              exact hz
            obtain ⟨s1', hs1'⟩ := List.getLast?_eq_some_iff.mp hzlast
            have hPr : (d1 ++ (dotp ++ (ws ++ [a, u]))) ++ r2 =
                s1' ++ ([z] ++ scanG rf rest) := by
              rw [show (d1 ++ (dotp ++ (ws ++ [a, u]))) ++ r2 =
                d1 ++ (dotp ++ (ws ++ a :: u :: r2)) from by simp]
              rw [← hdec, hseq, hs1', List.append_assoc]
            have haP : a ∈ d1 ++ (dotp ++ (ws ++ [a, u])) := by simp
            rcases List.append_eq_append_iff.mp hPr with ⟨w, hw1, hw2⟩ | ⟨w, hw1, hw2⟩
            · have haB : a ∈ rf v b := by
                apply hs1suf.subset
                rw [hs1']
                apply List.mem_append_left
                rw [hw1]
                exact List.mem_append_left _ haP
              obtain ⟨hc1, hc2⟩ := hnomc a haB
              rw [hc1, hc2] at hha
              cases hha
            · cases w with
              | nil =>
                rw [List.append_nil] at hw1
                have haB : a ∈ rf v b := by
                  apply hs1suf.subset
                  rw [hs1']
                  apply List.mem_append_left
                  rw [← hw1]
                  exact haP
                obtain ⟨hc1, hc2⟩ := hnomc a haB
                rw [hc1, hc2] at hha
                cases hha
              | cons w0 w' =>
                simp only [List.cons_append, List.nil_append] at hw2
                injection hw2 with hzw0 _
                have hzP : z ∈ d1 ++ (dotp ++ (ws ++ [a, u])) := by
                  rw [hw1, hzw0]
                  exact List.mem_append_right _ (List.mem_cons_self _ _)
                rw [matchP_all hd1dig hdotp hws hha hhu z hzP] at hzm
                cases hzm
      | none =>
        rw [scanG_cons_none rf c t hm] at hs
        rw [List.suffix_cons_iff] at hs
        cases hs with
        | inr hs2 =>
          exact ih t (by simp only [List.length_cons] at hl; omega) s hs2
        | inl hseq =>
          cases hmm : tryMatchML s with
          | none => rfl
          | some val2 =>
            exfalso
            obtain ⟨v2, b2, r2⟩ := val2
            obtain ⟨d1, dotp, ws, a, u, hdec, hd1ne, hd1dig, hdotp, hws, hha, hhu⟩ :=
              tryMatchML_some_decomp hmm
            cases d1 with
            | nil => exact hd1ne rfl
            | cons e d1' =>
              rw [hseq] at hdec
              rw [List.cons_append] at hdec
              injection hdec with h1 h2
              have h2' : (d1' ++ (dotp ++ (ws ++ [a, u]))) ++ r2 = scanG rf t := by
                rw [h2]
                simp
              have hmsP : ∀ ch ∈ d1' ++ (dotp ++ (ws ++ [a, u])), matchSet ch = true :=
                matchP_all (fun x hx => hd1dig x (List.mem_cons_of_mem _ hx))
                  hdotp hws hha hhu
              obtain ⟨r0, hr0⟩ := prefix_transfer rf hok t _ r2 hmsP
                (Or.inl ⟨d1' ++ (dotp ++ ws), a, u, by simp, hha, hhu⟩) h2'
              apply tryMatchML_some_of_decomp (e :: d1') dotp ws a u r0
                (by simp) hd1dig hdotp hws hha hhu
              have hteq : (e :: d1') ++ (dotp ++ (ws ++ a :: u :: r0)) = c :: t := by
                rw [List.cons_append, ← h1, hr0]
                simp
              rw [hteq]
              exact hm

lemma scanG_eq_self (rf : ℚ → Bool → List Char) :
    ∀ l, (∀ s, s <:+ l → tryMatchML s = none) → scanG rf l = l := by
  intro l
  induction l with
  | nil =>
    intro _
    exact scanG_nil rf
  | cons c t ih =>
    intro h
    rw [scanG_cons_none rf c t (h (c :: t) (List.suffix_refl _))]
    rw [ih (fun s hs => h s (hs.trans (List.suffix_cons c t)))]

lemma scanG_idem (rf : ℚ → Bool → List Char) (hok : ReplOK rf) (l : List Char) :
    scanG rf (scanG rf l) = scanG rf l :=
  scanG_eq_self rf (scanG rf l)
    (fun s hs => scanG_no_match rf hok l.length l (Nat.le_refl _) s hs)

lemma digitChar10_digit (m : Nat) : isDigitC (digitChar10 m) = true := by
  unfold digitChar10
  split <;> decide

lemma natDigits_digits : ∀ n, ∀ ch ∈ natDigits n, isDigitC ch = true := by
  intro n
  induction n using Nat.strong_induction_on with
  | _ n ih =>
    intro ch hch
    unfold natDigits at hch
    split at hch
    · rw [List.mem_singleton] at hch
      rw [hch]
      exact digitChar10_digit n
    · rename_i hge
      rw [List.mem_append] at hch
      rcases hch with h | h
      · exact ih (n / 10) (Nat.div_lt_self (by omega) (by decide)) ch h
      · rw [List.mem_singleton] at h
        rw [h]
        exact digitChar10_digit (n % 10)

lemma natDigits_ne_nil (n : Nat) : natDigits n ≠ [] := by
  unfold natDigits
  split <;> simp

lemma twoDig_digits (m : Nat) : ∀ ch ∈ twoDig m, isDigitC ch = true := by
  intro ch hch
  unfold twoDig at hch
  split at hch
  · rw [List.mem_cons] at hch
    rcases hch with rfl | h
    · decide
    · exact natDigits_digits m ch h
  · exact natDigits_digits m ch hch

lemma fmt2_chars (q : ℚ) : ∀ ch ∈ fmt2 q,
    isDigitC ch = true ∨ ch = '.' ∨ ch = '-' := by
  intro ch hch
  unfold fmt2 at hch
  split at hch
  · rw [List.mem_cons] at hch
    rcases hch with rfl | h
    · exact Or.inr (Or.inr rfl)
    · rw [List.mem_append] at h
      rcases h with h | h
      · exact Or.inl (natDigits_digits _ ch h)
      · rw [List.mem_cons] at h
        rcases h with rfl | h
        · exact Or.inr (Or.inl rfl)
        · exact Or.inl (twoDig_digits _ ch h)
  · rw [List.mem_append] at hch
    rcases hch with h | h
    · exact Or.inl (natDigits_digits _ ch h)
    · rw [List.mem_cons] at h
      rcases h with rfl | h
      · exact Or.inr (Or.inl rfl)
      · exact Or.inl (twoDig_digits _ ch h)

lemma fmt2_ne_nil (q : ℚ) : fmt2 q ≠ [] := by
  unfold fmt2
  split <;> simp

lemma safeChar_not {ch : Char}
    (h : isDigitC ch = true ∨ ch = '.' ∨ ch = '-' ∨ ch = ' ' ∨ ch = 'o' ∨
      ch = 'z' ∨ ch = 'd' ∨ ch = 'a' ∨ ch = 's' ∨ ch = 'h') :
    ciEq 'm' ch = false ∧ ciEq 'c' ch = false ∧ ciEq 'l' ch = false := by
  rcases h with h | rfl | rfl | rfl | rfl | rfl | rfl | rfl | rfl | rfl
  · exact ⟨digit_not_m h, digit_not_c h, digit_not_l h⟩
  · exact ⟨by decide, by decide, by decide⟩
  · exact ⟨by decide, by decide, by decide⟩
  · exact ⟨by decide, by decide, by decide⟩
  · exact ⟨by decide, by decide, by decide⟩
  · exact ⟨by decide, by decide, by decide⟩
  · exact ⟨by decide, by decide, by decide⟩
  · exact ⟨by decide, by decide, by decide⟩
  · exact ⟨by decide, by decide, by decide⟩
  · exact ⟨by decide, by decide, by decide⟩

lemma fmt2_safe (q : ℚ) (ch : Char) (h : ch ∈ fmt2 q) :
    ciEq 'm' ch = false ∧ ciEq 'c' ch = false ∧ ciEq 'l' ch = false := by
  rcases fmt2_chars q ch h with h1 | h1 | h1
  · exact safeChar_not (Or.inl h1)
  · exact safeChar_not (Or.inr (Or.inl h1))
  · exact safeChar_not (Or.inr (Or.inr (Or.inl h1)))

lemma natDigits_safe (m : Nat) (ch : Char) (h : ch ∈ natDigits m) :
    ciEq 'm' ch = false ∧ ciEq 'c' ch = false ∧ ciEq 'l' ch = false :=
  safeChar_not (Or.inl (natDigits_digits m ch h))

lemma replBar_cases (v : ℚ) (b : Bool) :
    (∃ q, replBar v b = fmt2 q ++ ['o', 'z']) ∨
    replBar v b = ['d', 'a', 's', 'h'] := by
  have h : ∀ (c : Prop) (inst : Decidable c) (q : ℚ),
      (∃ q2, (if c then fmt2 q ++ ['o', 'z'] else ['d', 'a', 's', 'h']) =
        fmt2 q2 ++ ['o', 'z']) ∨
      (if c then fmt2 q ++ ['o', 'z'] else ['d', 'a', 's', 'h']) =
        ['d', 'a', 's', 'h'] := by
    intro c inst q
    by_cases hc : c
    · exact Or.inl ⟨q, if_pos hc⟩
    · exact Or.inr (if_neg hc)
  exact h _ _ _

lemma replDb_cases (v : ℚ) (b : Bool) :
    replDb v b = ['d', 'a', 's', 'h'] ∨
    ∃ L, replDb v b = L ++ [' ', 'o', 'z'] ∧
      ((∃ m, L = '-' :: natDigits m) ∨ (∃ m, L = natDigits m) ∨
        ∃ q, L = fmt2 q) := by
  have h : ∀ (c1 c2 c3 : Prop) (i1 : Decidable c1) (i2 : Decidable c2)
      (i3 : Decidable c3) (m : Nat) (q : ℚ),
      (if c1 then ['d', 'a', 's', 'h'] else
        (if c2 then (if c3 then '-' :: natDigits m else natDigits m)
          else fmt2 q) ++ [' ', 'o', 'z']) = ['d', 'a', 's', 'h'] ∨
      ∃ L, (if c1 then ['d', 'a', 's', 'h'] else
        (if c2 then (if c3 then '-' :: natDigits m else natDigits m)
          else fmt2 q) ++ [' ', 'o', 'z']) = L ++ [' ', 'o', 'z'] ∧
        ((∃ m2, L = '-' :: natDigits m2) ∨ (∃ m2, L = natDigits m2) ∨
          ∃ q2, L = fmt2 q2) := by
    intro c1 c2 c3 i1 i2 i3 m q
    by_cases h1 : c1
    · exact Or.inl (if_pos h1)
    · refine Or.inr ?_
      rw [if_neg h1]
      by_cases h2 : c2
      · rw [if_pos h2]
        by_cases h3 : c3
        · rw [if_pos h3]
          exact ⟨_, rfl, Or.inl ⟨m, rfl⟩⟩
        · rw [if_neg h3]
          exact ⟨_, rfl, Or.inr (Or.inl ⟨m, rfl⟩)⟩
      · rw [if_neg h2]
        exact ⟨_, rfl, Or.inr (Or.inr ⟨q, rfl⟩)⟩
  exact h _ _ _ _ _ _ _ _

lemma replBar_ok : ReplOK replBar := by
  intro v b
  rcases replBar_cases v b with ⟨q, heq⟩ | heq
  · refine ⟨?_, ?_, ?_, ?_⟩
    · rw [heq]
      simp
    · intro ch hch
      rw [heq, List.mem_append] at hch
      rcases hch with h | h
      · obtain ⟨hm1, hm2, _⟩ := fmt2_safe q ch h
        exact ⟨hm1, hm2⟩
      · rw [List.mem_cons, List.mem_singleton] at h
        rcases h with rfl | rfl
        · exact ⟨by decide, by decide⟩
        · exact ⟨by decide, by decide⟩
    · refine ⟨'z', ?_, by decide⟩
      rw [heq, List.getLast?_append_of_ne_nil (fmt2 q) (by decide)]
      rfl
    · cases hF : fmt2 q with
      | nil => exact absurd hF (fmt2_ne_nil q)
      | cons x xs =>
        refine ⟨x, ?_, ?_⟩
        · rw [heq, hF]
          rfl
        · have hx : x ∈ fmt2 q := by
            rw [hF]
            exact List.mem_cons_self _ _
          exact (fmt2_safe q x hx).2.2
  · refine ⟨?_, ?_, ?_, ?_⟩
    · rw [heq]
      decide
    · intro ch hch
      rw [heq] at hch
      simp only [List.mem_cons, List.not_mem_nil, or_false] at hch
      rcases hch with rfl | rfl | rfl | rfl
      · exact ⟨by decide, by decide⟩
      · exact ⟨by decide, by decide⟩
      · exact ⟨by decide, by decide⟩
      · exact ⟨by decide, by decide⟩
    · exact ⟨'h', by rw [heq]; rfl, by decide⟩
    · exact ⟨'d', by rw [heq]; rfl, by decide⟩

lemma replDb_ok : ReplOK replDb := by
  intro v b
  rcases replDb_cases v b with heq | ⟨L, heq, hL⟩
  · refine ⟨?_, ?_, ?_, ?_⟩
    · rw [heq]
      decide
    · intro ch hch
      rw [heq] at hch
      simp only [List.mem_cons, List.not_mem_nil, or_false] at hch
      rcases hch with rfl | rfl | rfl | rfl
      · exact ⟨by decide, by decide⟩
      · exact ⟨by decide, by decide⟩
      · exact ⟨by decide, by decide⟩
      · exact ⟨by decide, by decide⟩
    · exact ⟨'h', by rw [heq]; rfl, by decide⟩
    · exact ⟨'d', by rw [heq]; rfl, by decide⟩
  · have hsafe : ∀ ch ∈ L, ciEq 'm' ch = false ∧ ciEq 'c' ch = false ∧
        ciEq 'l' ch = false := by
      intro ch hch
      rcases hL with ⟨m, rfl⟩ | ⟨m, rfl⟩ | ⟨q, rfl⟩
      · rw [List.mem_cons] at hch
        rcases hch with rfl | hch
        · exact ⟨by decide, by decide, by decide⟩
        · exact natDigits_safe m ch hch
      · exact natDigits_safe m ch hch
      · exact fmt2_safe q ch hch
    have hLne : L ≠ [] := by
      rcases hL with ⟨m, rfl⟩ | ⟨m, rfl⟩ | ⟨q, rfl⟩
      · simp
      · exact natDigits_ne_nil m
      · exact fmt2_ne_nil q
    refine ⟨?_, ?_, ?_, ?_⟩
    · rw [heq]
      simp
    · intro ch hch
      rw [heq, List.mem_append] at hch
      rcases hch with h | h
      · obtain ⟨hm1, hm2, _⟩ := hsafe ch h
        exact ⟨hm1, hm2⟩
      · simp only [List.mem_cons, List.not_mem_nil, or_false] at h
        rcases h with rfl | rfl | rfl
        · exact ⟨by decide, by decide⟩
        · exact ⟨by decide, by decide⟩
        · exact ⟨by decide, by decide⟩
    · refine ⟨'z', ?_, by decide⟩
      rw [heq, List.getLast?_append_of_ne_nil L (by decide)]
      rfl
    · cases hF : L with
      | nil => exact absurd hF hLne
      | cons x xs =>
        refine ⟨x, ?_, ?_⟩
        · rw [heq, hF]
          rfl
        · have hx : x ∈ L := by
            rw [hF]
            exact List.mem_cons_self _ _
          exact (hsafe x hx).2.2

/-- C8: both `convert_ml_to_oz` variants (`bar.py` and `db_utils.py`) are
    idempotent: applying the converter to its own output returns that output
    unchanged, because the output contains no remaining
    number-followed-by-`ml`/`cl` token (the pattern fails at every position
    of the converted text). -/
theorem convert_ml_to_oz_idempotent (text : String) :
    convert_ml_to_oz_bar (convert_ml_to_oz_bar text) = convert_ml_to_oz_bar text ∧
    convert_ml_to_oz_db (convert_ml_to_oz_db text) = convert_ml_to_oz_db text := by
  constructor
  · unfold convert_ml_to_oz_bar
    rw [show (String.mk (scanG replBar text.data)).data =
      scanG replBar text.data from rfl]
    rw [scanG_idem replBar replBar_ok text.data]
  · unfold convert_ml_to_oz_db
    rw [show (String.mk (scanG replDb text.data)).data =
      scanG replDb text.data from rfl]
    rw [scanG_idem replDb replDb_ok text.data]
